import Mathlib

/-!
# QuizWhiz quiz engine: a shallow embedding of `src/js/quiz.js`

The development embeds the quiz session engine (`QuizEngine` in `src/js/quiz.js`), the
question sampler it calls (`DataManager.getQuizQuestions` / `shuffleArray` in
`src/js/data.js`) and the constants of `src/js/config.js`.

Modelling conventions.

* JavaScript numbers that hold indices or counters are `Nat` when the code can only make
  them non-negative and `Int` when `-1` (or any caller-supplied value) can occur.
* `null` is `none`. An entry of `answers` is `none` (unset), `some (-1)` (skipped) or
  `some k` (option `k` was submitted).
* `Math.floor(Math.random() * (i + 1))` is an external input with values in `[0, i]`:
  every shuffle receives a `Draw`, giving the index `j ≤ i` drawn at loop position `i`.
* `Date.now()` is an external input `now`.
* The browser's timers are explicit: the set of live `setInterval` handles and the number
  of `setTimeout` callbacks that are scheduled and have not fired yet.
* DOM rendering (`UI.*`, `updateTimerDisplay`) does not touch the engine state and is
  left out, except that the `Results` handed to `UI.renderResults` are logged.
* The one floating-point computation, `Math.round((correct / total) * 100)`, is modelled
  with exact IEEE-754 binary64 rounding (round to nearest, ties to even).
* In the review items of `getReviewData`, `undefined` is `none`.
-/

namespace QuizWhiz

/-! ## Constants (`src/js/config.js`) -/

/-- The constant `CONFIG.QUESTIONS_PER_QUIZ`. -/
def QUESTIONS_PER_QUIZ : Nat := 10

/-- The constant `CONFIG.TIME_PER_QUESTION_MINUTES`. -/
def TIME_PER_QUESTION_MINUTES : Nat := 1

/-- The constant `CONFIG.POINTS_CORRECT`. -/
def POINTS_CORRECT : Nat := 10

/-! ## Fisher-Yates loop (`DataManager.shuffleArray`, and inline in `shuffleOptions`) -/

/-- The values of `Math.floor(Math.random() * (i + 1))`, one per loop position `i`:
`Math.random()` lies in `[0, 1)`, so the draw at position `i` is an index in `[0, i]`. -/
abbrev Draw : Type := (i : Nat) → Fin (i + 1)

/-- The destructuring swap `[a[i], a[j]] = [a[j], a[i]]`: both reads happen first, then
`a[i]` and `a[j]` are written. The loops below call it with `j ≤ i < a.length` only, so
the second branch (an index outside the array) is never taken by them. -/
def swap {α : Type} (a : List α) (i j : Nat) : List α :=
  match a[i]?, a[j]? with
  | some x, some y => (a.set i y).set j x
  | _, _ => a

/-- The loop `for (let i = n; i > 0; i--) { j = draw i; swap a[i], a[j] }`, started at
`i = n`. -/
def shuffleLoop {α : Type} (draw : Draw) : Nat → List α → List α
  | 0, a => a
  | i + 1, a => shuffleLoop draw i (swap a (i + 1) (draw (i + 1)).val)

/-- The method `DataManager.shuffleArray(array)`: the loop started at `array.length - 1`. -/
def shuffleArray {α : Type} (draw : Draw) (array : List α) : List α :=
  shuffleLoop draw (array.length - 1) array

/-! ## Data model -/

/-- A stored question (`DEFAULT_QUESTIONS` entries in `src/js/data.js`). -/
structure Question where
  id : String
  category : String
  question : String
  options : List String
  correct : Int
deriving DecidableEq, Repr

/-- An element of the local array `optionsWithIndex` of `shuffleOptions`. -/
structure OptionWithIndex where
  text : String
  isCorrect : Bool
deriving DecidableEq, Repr

/-- The object returned by `shuffleOptions`. -/
structure ShuffledOptions where
  options : List String
  correctIndex : Int
deriving DecidableEq, Repr

/-- A question of a session: `{...q, shuffledOptions}`. -/
structure PresentedQuestion where
  q : Question
  shuffledOptions : ShuffledOptions
deriving DecidableEq, Repr

/-- The array `options.map((opt, idx) => ({ text: opt, isCorrect: idx === correctIndex }))`,
with the index of the first element passed as `idx`. -/
def optionsWithIndex (correctIndex : Int) : Nat → List String → List OptionWithIndex
  | _, [] => []
  | idx, opt :: rest =>
    { text := opt, isCorrect := decide ((idx : Int) = correctIndex) } ::
      optionsWithIndex correctIndex (idx + 1) rest

/-- The method `Array.prototype.findIndex`: the first index whose element satisfies `p`, or `-1`. -/
def findIndex {α : Type} (p : α → Bool) (a : List α) : Int :=
  match a.findIdx? p with
  | some i => (i : Int)
  | none => -1

/-- The method `QuizEngine.shuffleOptions(options, correctIndex)`. -/
def shuffleOptions (draw : Draw) (options : List String) (correctIndex : Int) :
    ShuffledOptions :=
  let tagged := optionsWithIndex correctIndex 0 options
  let shuffled := shuffleLoop draw (tagged.length - 1) tagged
  { options := shuffled.map (fun opt => opt.text)
    correctIndex := findIndex (fun opt => opt.isCorrect) shuffled }

/-- The method `DataManager.getQuestions(category)`; `pool` is what `getAllQuestions()` reads from
storage. -/
def getQuestions (pool : List Question) (category : String) : List Question :=
  pool.filter (fun q => decide (q.category = category))

/-- The method `DataManager.getQuizQuestions(category, count)`. -/
def getQuizQuestions (pool : List Question) (draw : Draw) (category : String) (count : Nat) :
    List Question :=
  let filtered := getQuestions pool category
  let shuffled := shuffleArray draw filtered
  shuffled.take (min count shuffled.length)

/-- The field `QuizEngine.state`. -/
structure State where
  category : Option String
  questions : List PresentedQuestion
  currentIndex : Nat
  answers : List (Option Int)
  selectedOption : Option Int
  score : Nat
  startTime : Option Nat
  endTime : Option Nat
  totalTime : Nat
  timeRemaining : Int
  timerInterval : Option Nat
  isActive : Bool
deriving DecidableEq, Repr

/-- The state literal of `src/js/quiz.js` lines 9-22, which `reset` assigns again. -/
def State.initial : State :=
  { category := none, questions := [], currentIndex := 0, answers := [],
    selectedOption := none, score := 0, startTime := none, endTime := none,
    totalTime := 0, timeRemaining := 0, timerInterval := none, isActive := false }

/-- The object returned by `calculateResults`. `percentage` is `none` when the JavaScript
value is not a finite number (`0 / 0` is `NaN`). -/
structure Results where
  score : Nat
  correct : Nat
  wrong : Nat
  total : Nat
  percentage : Option Nat
  timeTaken : Int
  category : Option String
deriving DecidableEq, Repr

/-- The object `endQuiz` passes to `DataManager.addLeaderboardEntry`. -/
structure LeaderboardEntry where
  username : String
  category : Option String
  score : Nat
  timeTaken : Int
  correct : Nat
  total : Nat
deriving DecidableEq, Repr

/-- The engine together with the parts of its environment that it acts on. -/
structure World where
  /-- The field `QuizEngine.state`. -/
  state : State
  /-- Handles returned by `setInterval` and not yet passed to `clearInterval`. -/
  intervals : List Nat
  /-- The handle the next `setInterval` call returns (browsers hand out positive
  integers, so a stored handle is truthy). -/
  nextHandle : Nat
  /-- Callbacks scheduled by the `setTimeout` of `submitAnswer` that have not fired. All
  of them are the same closure over `this`, so their number is all there is to know. -/
  pendingAdvances : Nat
  /-- The result of `Auth.getUsername()` when `Auth.isLoggedIn()` holds, else `none`. -/
  user : Option String
  /-- The calls `DataManager.addUserResult(username, results)`, oldest first. -/
  savedResults : List (String × Results)
  /-- The calls `DataManager.addLeaderboardEntry(entry)`, oldest first. -/
  leaderboard : List LeaderboardEntry
  /-- The calls `UI.renderResults(results)`, oldest first. -/
  rendered : List Results

/-- The page right after the scripts have loaded. -/
def World.initial : World :=
  { state := State.initial, intervals := [], nextHandle := 1, pendingAdvances := 0,
    user := none, savedResults := [], leaderboard := [], rendered := [] }

/-! ## IEEE-754 binary64 arithmetic for `Math.round((correct / total) * 100)` -/

/-- The loop `while (n >= 2) { n = n / 2; k++ }`, run for at most `fuel` rounds. -/
def log2Loop : Nat → Nat → Nat
  | 0, _ => 0
  | fuel + 1, n => if n < 2 then 0 else log2Loop fuel (n / 2) + 1

/-- The integer `floor (log2 n)` for `n > 0`: halving `n` reaches `1` in fewer than `n`
rounds. -/
def log2 (n : Nat) : Nat :=
  log2Loop n n

/-- The integer `floor (log2 (n / d))`, for `n, d > 0`. -/
def floorLog2 (n d : Nat) : Int :=
  let l : Int := (log2 n : Int) - (log2 d : Int)
  if d * 2 ^ l.toNat ≤ n * 2 ^ (-l).toNat then l else l - 1

/-- The binary64 number nearest to the rational `n / d` (round to nearest, ties to even),
returned as a fraction `(numerator, denominator)`. A binary64 number with
`2 ^ k ≤ x < 2 ^ (k + 1)` is an integer multiple `m * 2 ^ (k - 52)`, `2 ^ 52 ≤ m < 2 ^ 53`.
Exact for `n / d` in the normal range `[2 ^ (-1022), 2 ^ 1024)`, which contains every
quotient of two array lengths and its hundredfold. -/
def roundToDouble (n d : Nat) : Nat × Nat :=
  if n = 0 then (0, 1)
  else
    let e : Int := floorLog2 n d - 52
    let scaledN := n * 2 ^ (-e).toNat
    let scaledD := d * 2 ^ e.toNat
    let q := scaledN / scaledD
    let r := scaledN % scaledD
    let m :=
      if 2 * r < scaledD then q
      else if scaledD < 2 * r then q + 1
      else if q % 2 = 0 then q
      else q + 1
    (m * 2 ^ e.toNat, 2 ^ (-e).toNat)

/-- The expression `Math.round((correct / total) * 100)`: a binary64 division, a binary64
multiplication and `Math.round`, which is `floor (y + 1/2)` (halves go up). For
`total = 0` the quotient is `NaN` (or `Infinity`), and so is the result. -/
def percentage (correct total : Nat) : Option Nat :=
  if total = 0 then none
  else
    let x := roundToDouble correct total
    let y := roundToDouble (x.1 * 100) x.2
    some ((2 * y.1 + y.2) / (2 * y.2))

/-! ## The engine (`src/js/quiz.js`) -/

/-- The method `QuizEngine.stopTimer()`. -/
def stopTimer (w : World) : World :=
  match w.state.timerInterval with
  | some h =>
    { w with
      intervals := w.intervals.filter (fun k => decide (k ≠ h))
      state := { w.state with timerInterval := none } }
  | none => w

/-- The method `QuizEngine.reset()`. The scheduled `setTimeout` callbacks are not touched. -/
def reset (w : World) : World :=
  let w1 := stopTimer w
  { w1 with state := State.initial }

/-- The array `questions.map(q => ({...q, shuffledOptions: this.shuffleOptions(...)}))`
built by `setup`, with `shuffleOptions(q.options, q.correct)` for each question; the
question at index `idx` is shuffled with the draws `drawO idx`. -/
def presentQuestions (drawO : Nat → Draw) : Nat → List Question → List PresentedQuestion
  | _, [] => []
  | idx, q :: rest =>
    { q := q, shuffledOptions := shuffleOptions (drawO idx) q.options q.correct } ::
      presentQuestions drawO (idx + 1) rest

/-- The method `QuizEngine.setup(category)`, returning the new world and the returned
boolean. `drawQ` are the draws of `shuffleArray`, `drawO idx` those of the `idx`-th
`shuffleOptions` call. -/
def setup (w : World) (pool : List Question) (drawQ : Draw) (drawO : Nat → Draw)
    (category : String) : World × Bool :=
  let w1 := reset w
  let questions := getQuizQuestions pool drawQ category QUESTIONS_PER_QUIZ
  if questions.length = 0 then (w1, false)
  else
    let presented := presentQuestions drawO 0 questions
    let totalTime := presented.length * TIME_PER_QUESTION_MINUTES * 60
    ({ w1 with
        state :=
          { w1.state with
            questions := presented
            category := some category
            answers := List.replicate presented.length none
            totalTime := totalTime
            timeRemaining := (totalTime : Int) } },
      true)

/-- The method `QuizEngine.startTimer()`: `setInterval` returns a fresh handle, which is stored. -/
def startTimer (w : World) : World :=
  { w with
    intervals := w.nextHandle :: w.intervals
    nextHandle := w.nextHandle + 1
    state := { w.state with timerInterval := some w.nextHandle } }

/-- The method `QuizEngine.start()`. -/
def start (w : World) (now : Nat) : World :=
  startTimer { w with state := { w.state with startTime := some now, isActive := true } }

/-- The method `QuizEngine.getCurrentQuestion()`; `none` is `undefined`. -/
def getCurrentQuestion (s : State) : Option PresentedQuestion :=
  s.questions[s.currentIndex]?

/-- The `forEach` of `calculateResults` over the answers from index `idx` on, with the
counters `(correct, wrong)`; `none` is the `TypeError` raised by
`this.state.questions[idx].shuffledOptions` when `questions[idx]` is `undefined`. -/
def tally (questions : List PresentedQuestion) :
    List (Option Int) → Nat → Nat × Nat → Option (Nat × Nat)
  | [], _, acc => some acc
  | answer :: rest, idx, (correct, wrong) =>
    if answer = some (-1) ∨ answer = none then tally questions rest (idx + 1) (correct, wrong + 1)
    else
      match questions[idx]? with
      | none => none
      | some q =>
        if answer = some q.shuffledOptions.correctIndex then
          tally questions rest (idx + 1) (correct + 1, wrong)
        else tally questions rest (idx + 1) (correct, wrong + 1)

/-- The method `QuizEngine.calculateResults()`; `none` when it raises a `TypeError`. -/
def calculateResults (s : State) : Option Results :=
  match tally s.questions s.answers 0 (0, 0) with
  | none => none
  | some (correct, wrong) =>
    let total := s.questions.length
    some
      { score := s.score
        correct := correct
        wrong := wrong
        total := total
        percentage := percentage correct total
        timeTaken := (s.totalTime : Int) - s.timeRemaining
        category := s.category }

/-- The method `QuizEngine.endQuiz()`: the new world and the returned `Results` (`none` when
`calculateResults` raised, in which case nothing is saved or rendered). -/
def endQuiz (w : World) (now : Nat) : World × Option Results :=
  let w1 := stopTimer w
  let w2 := { w1 with state := { w1.state with isActive := false, endTime := some now } }
  match calculateResults w2.state with
  | none => (w2, none)
  | some results =>
    let w3 : World :=
      match w2.user with
      | some username =>
        let entry : LeaderboardEntry :=
          { username := username, category := w2.state.category, score := results.score,
            timeTaken := results.timeTaken, correct := results.correct,
            total := results.total }
        { w2 with
          savedResults := w2.savedResults ++ [(username, results)]
          leaderboard := w2.leaderboard ++ [entry] }
      | none => w2
    ({ w3 with rendered := w3.rendered ++ [results] }, some results)

/-- The loop of `handleTimeUp`, at index `i` with `fuel` iterations left:
`if (answers[i] === null) answers[i] = -1`. An index beyond the end of `answers` reads
`undefined`, which is not `null`, so nothing is written there. -/
def markSkipped (answers : List (Option Int)) (i : Nat) : Nat → List (Option Int)
  | 0 => answers
  | fuel + 1 =>
    markSkipped (if answers[i]? = some none then answers.set i (some (-1)) else answers)
      (i + 1) fuel

/-- The method `QuizEngine.handleTimeUp()`: the loop runs for `i` from `currentIndex` while
`i < questions.length`. -/
def handleTimeUp (w : World) (now : Nat) : World × Option Results :=
  let answers :=
    markSkipped w.state.answers w.state.currentIndex
      (w.state.questions.length - w.state.currentIndex)
  endQuiz { w with state := { w.state with answers := answers } } now

/-- One firing of the callback that `startTimer` passed to `setInterval`. -/
def timerCallback (w : World) (now : Nat) : World :=
  let w1 := { w with state := { w.state with timeRemaining := w.state.timeRemaining - 1 } }
  if w1.state.timeRemaining ≤ 0 then (handleTimeUp w1 now).1 else w1

/-- The method `QuizEngine.selectOption(index)`. -/
def selectOption (w : World) (index : Int) : World :=
  { w with state := { w.state with selectedOption := some index } }

/-- How a call of `submitAnswer` ends. -/
inductive SubmitOutcome where
  /-- The call returned this boolean. -/
  | returned (value : Bool)
  /-- The call raised a `TypeError` (`currentQ` is `undefined`). -/
  | threw
deriving DecidableEq, Repr

/-- The method `QuizEngine.submitAnswer()`. The write `answers[currentIndex] = selectedOption`
happens after `questions[currentIndex]` was read, so `currentIndex < questions.length`,
and it replaces an existing entry whenever `answers` is as long as `questions`, which
holds on the fresh page and is kept by every event (`step_lenEq`). Only if `answers`
were shorter would JavaScript grow the array instead; no run of the engine gets there,
and `List.set` does not model it. -/
def submitAnswer (w : World) : World × SubmitOutcome :=
  match w.state.selectedOption with
  | none => (w, SubmitOutcome.returned false)
  | some selected =>
    match getCurrentQuestion w.state with
    | none => (w, SubmitOutcome.threw)
    | some currentQ =>
      let correctIndex := currentQ.shuffledOptions.correctIndex
      let isCorrect := decide (selected = correctIndex)
      ({ w with
          state :=
            { w.state with
              answers := w.state.answers.set w.state.currentIndex (some selected)
              score := if isCorrect then w.state.score + POINTS_CORRECT else w.state.score }
          pendingAdvances := w.pendingAdvances + 1 },
        SubmitOutcome.returned true)

/-- The method `QuizEngine.nextQuestion()`. -/
def nextQuestion (w : World) (now : Nat) : World × Option Results :=
  if (w.state.currentIndex : Int) < (w.state.questions.length : Int) - 1 then
    ({ w with state := { w.state with currentIndex := w.state.currentIndex + 1 } }, none)
  else endQuiz w now

/-- One firing of the callback that `submitAnswer` passed to `setTimeout`. -/
def advanceCallback (w : World) (now : Nat) : World :=
  (nextQuestion { w with state := { w.state with selectedOption := none } } now).1

/-! ## Runs of the engine -/

/-- What can happen to the engine: calls of its methods and firings of its timers. -/
inductive Event where
  | reset
  | setup (pool : List Question) (drawQ : Draw) (drawO : Nat → Draw) (category : String)
  | start (now : Nat)
  /-- The interval with handle `handle` fires (if it is live). -/
  | tick (handle : Nat) (now : Nat)
  | selectOption (index : Int)
  | submitAnswer
  /-- One scheduled deferred advance fires (if there is one). -/
  | advance (now : Nat)
  | nextQuestion (now : Nat)
  | handleTimeUp (now : Nat)
  | endQuiz (now : Nat)

/-- The world after one event. A timer that is not live does not fire. -/
def step (w : World) : Event → World
  | Event.reset => reset w
  | Event.setup pool drawQ drawO category => (setup w pool drawQ drawO category).1
  | Event.start now => start w now
  | Event.tick handle now => if handle ∈ w.intervals then timerCallback w now else w
  | Event.selectOption index => selectOption w index
  | Event.submitAnswer => (submitAnswer w).1
  | Event.advance now =>
    if 0 < w.pendingAdvances then
      advanceCallback { w with pendingAdvances := w.pendingAdvances - 1 } now
    else w
  | Event.nextQuestion now => (nextQuestion w now).1
  | Event.handleTimeUp now => (handleTimeUp w now).1
  | Event.endQuiz now => (endQuiz w now).1

/-- The world after a sequence of events. -/
def run (w : World) (events : List Event) : World :=
  events.foldl step w

/-! ## Vocabulary for the statements -/

/-- The invariant `len(answers) == len(questions)`. -/
def LenEq (w : World) : Prop :=
  w.state.answers.length = w.state.questions.length

/-- The test of `calculateResults` for one answer: it is neither skipped nor unset and it
equals the relocated correct index of its question. -/
def isRight (q : PresentedQuestion) (answer : Option Int) : Bool :=
  decide (answer ≠ some (-1) ∧ answer ≠ none ∧ answer = some q.shuffledOptions.correctIndex)

/-- The number of positions at which the answer is right for its question. -/
def countCorrect : List PresentedQuestion → List (Option Int) → Nat
  | q :: questions, answer :: answers =>
    (if isRight q answer then 1 else 0) + countCorrect questions answers
  | _, _ => 0

/-- The invariant behind the scoring law: the answers are as many as the questions, the
score is `POINTS_CORRECT` times the number of right answers, and a selection is never
negative. -/
def ScoreInv (w : World) : Prop :=
  LenEq w ∧
  w.state.score = countCorrect w.state.questions w.state.answers * POINTS_CORRECT ∧
  ∀ s : Int, w.state.selectedOption = some s → 0 ≤ s

/-- What a step may add to the rendered results: nothing, or one `Results` that obeys
the scoring law. -/
def RendersLawful (w v : World) : Prop :=
  v.rendered = w.rendered ∨
  ∃ r : Results, v.rendered = w.rendered ++ [r] ∧ r.score = r.correct * POINTS_CORRECT

/-- At most `QUESTIONS_PER_QUIZ` questions. -/
def SizeInv (w : World) : Prop :=
  w.state.questions.length ≤ QUESTIONS_PER_QUIZ

/-- The calls the quiz screen can make: it offers one button per presented option, so a
selection is never negative, and it disables the submit button from a submission until
the next question is shown, so an answer is submitted only for a question whose entry is
still unset. Timer events and direct calls of the other methods are not restricted. -/
def permitted (w : World) : Event → Bool
  | Event.selectOption index => decide (0 ≤ index)
  | Event.submitAnswer => decide (w.state.answers[w.state.currentIndex]? = some none)
  | _ => true

/-- Every event of the sequence is permitted in the world it arrives in. -/
def disciplined (w : World) : List Event → Bool
  | [] => true
  | e :: es => permitted w e && disciplined (step w e) es

/-! ## Sample data -/

/-- The draws `j = i`: every swap is with itself, the order is kept. -/
def keepOrder : Draw := fun i => Fin.last i

/-- The draws `j = 0`. -/
def drawZero : Draw := fun _ => 0

/-- A question of category `css` with four options. -/
def sampleQuestion (id : String) (correct : Int) : Question :=
  { id := id, category := "css", question := "Which one?",
    options := ["red", "green", "blue", "teal"], correct := correct }

/-- A pool with three `css` questions and one `html` question. -/
def samplePool : List Question :=
  [sampleQuestion "c1" 0, sampleQuestion "c2" 1,
    { sampleQuestion "h1" 3 with category := "html" }, sampleQuestion "c3" 2]

/-- A pool whose only question stores a `correct` index outside its four options. -/
def malformedPool : List Question :=
  [sampleQuestion "m1" 7]

/-- The session that `setup("css")` builds from `samplePool` on a fresh page. -/
def sampleSession : World :=
  (setup World.initial samplePool keepOrder (fun _ => drawZero) "css").1

/-- The one-question session that `setup("html")` builds from `samplePool`, started, after
the 60 ticks of its timer. -/
def timedOutSession : World :=
  run (setup World.initial samplePool keepOrder (fun _ => drawZero) "html").1
    (Event.start 0 :: List.replicate 60 (Event.tick 1 60))

/-! ## Vocabulary for the statements about sessions and timers -/

/-- The events that drive an existing session: everything except `reset` and `setup`,
which replace the session. -/
def sessionEvent : Event → Bool
  | Event.reset => false
  | Event.setup _ _ _ _ => false
  | _ => true

/-- The current index points at a question. -/
def IdxInv (w : World) : Prop :=
  w.state.currentIndex < w.state.questions.length

/-- The guard under which the application calls `start()`: `App.startQuiz` does it right
after a successful `setup`, when no timer is running and the time budget is positive.
No other event is restricted. -/
def orderlyStart (w : World) : Event → Bool
  | Event.start _ => decide (w.intervals = [] ∧ 0 < w.state.timeRemaining)
  | _ => true

/-- Every `start` of the sequence is orderly in the world it arrives in. -/
def orderlyRun (w : World) : List Event → Bool
  | [] => true
  | e :: es => orderlyStart w e && orderlyRun (step w e) es

/-- The invariant behind the time bounds: the remaining time lies between 0 and the
total time, the total time is 60 seconds per question, every live timer is the stored
one and is live only while time remains, and every rendered `Results` reports a time
taken between 0 and its 60 seconds per question. -/
def TimeInv (w : World) : Prop :=
  0 ≤ w.state.timeRemaining ∧
  w.state.timeRemaining ≤ (w.state.totalTime : Int) ∧
  w.state.totalTime = w.state.questions.length * 60 ∧
  (∀ h ∈ w.intervals, w.state.timerInterval = some h ∧ 0 < w.state.timeRemaining) ∧
  ∀ r ∈ w.rendered, 0 ≤ r.timeTaken ∧ r.timeTaken ≤ ((r.total * 60 : Nat) : Int)

/-- The events of `n` seconds in which timer 1 and then timer 2 tick once a second, the
first second being `now`. -/
def alternateTicks : Nat → Nat → List Event
  | 0, _ => []
  | n + 1, now => Event.tick 1 now :: Event.tick 2 now :: alternateTicks n (now + 1)

/-- The one-question `html` session of `samplePool` (60 seconds) with `start()` called
twice: the first timer (handle 1) keeps running although only the handle of the second
(handle 2) is stored. Both tick once a second; this is the world after 30 seconds. -/
def orphanTimerSession : World :=
  run (setup World.initial samplePool keepOrder (fun _ => drawZero) "html").1
    (Event.start 0 :: Event.start 0 :: alternateTicks 30 1)

/-! ## The review (`QuizEngine.getReviewData`) -/

/-- An element of the array returned by `getReviewData`. In `userAnswer` and
`correctAnswer`, `none` is `undefined` (an array read that found no element). -/
structure ReviewItem where
  question : String
  options : List String
  userAnswer : Option String
  correctAnswer : Option String
  isCorrect : Bool
  wasSkipped : Bool
deriving DecidableEq, Repr

/-- The array read `options[index]` for a number `index`: the element, or `undefined`
when the index is negative or beyond the end. -/
def optionAt (options : List String) (index : Int) : Option String :=
  if 0 ≤ index then options[index.toNat]? else none

/-- The callback of the `map` in `getReviewData`, for the question `q` and
`userAnswer = this.state.answers[idx]`, which is `undefined` (`none`), `null`
(`some none`) or a number. `undefined >= 0` is false; `null >= 0` is true, because
`null` converts to `0`, and `options[null]` reads the property named "null", which is
`undefined`. -/
def reviewItem (q : PresentedQuestion) (userAnswer : Option (Option Int)) : ReviewItem :=
  let correctIdx := q.shuffledOptions.correctIndex
  { question := q.q.question
    options := q.shuffledOptions.options
    userAnswer :=
      match userAnswer with
      | none => some "Not answered"
      | some none => none
      | some (some v) =>
        if 0 ≤ v then optionAt q.shuffledOptions.options v else some "Not answered"
    correctAnswer := optionAt q.shuffledOptions.options correctIdx
    isCorrect := decide (userAnswer = some (some correctIdx))
    wasSkipped := decide (userAnswer = some (some (-1)) ∨ userAnswer = some none) }

/-- The `map` of `getReviewData` over the questions from index `idx` on. -/
def reviewFrom (answers : List (Option Int)) : Nat → List PresentedQuestion → List ReviewItem
  | _, [] => []
  | idx, q :: rest => reviewItem q answers[idx]? :: reviewFrom answers (idx + 1) rest

/-- The method `QuizEngine.getReviewData()`. -/
def getReviewData (s : State) : List ReviewItem :=
  reviewFrom s.answers 0 s.questions

/-! ## Vocabulary for the statements about results and reviews -/

/-- The answer at index `i` is counted as correct by `calculateResults`: it is a number
other than `-1` and equals the relocated correct index of question `i`. -/
def rightAt (questions : List PresentedQuestion) (answers : List (Option Int)) (i : Nat) :
    Bool :=
  match answers[i]?, questions[i]? with
  | some (some v), some q => decide (v ≠ -1 ∧ v = q.shuffledOptions.correctIndex)
  | _, _ => false

/-- The events of a quiz in which every question is submitted at most once: `start`,
timer ticks, `selectOption`, deferred advances, and `submitAnswer` only while
`answers[currentIndex]` is still unset (the quiz screen disables the submit button
after a submission). -/
def answersOnce (w : World) : Event → Bool
  | Event.start _ => true
  | Event.tick _ _ => true
  | Event.selectOption _ => true
  | Event.advance _ => true
  | Event.submitAnswer => decide (w.state.answers[w.state.currentIndex]? = some none)
  | _ => false

/-- Every event of the sequence satisfies `answersOnce` in the world it arrives in. -/
def answersOnceRun (w : World) : List Event → Bool
  | [] => true
  | e :: es => answersOnce w e && answersOnceRun (step w e) es

/-- The invariant behind the answered prefix: every answer below `currentIndex` is
recorded, at most one deferred advance is scheduled, and while one is scheduled the
current answer is recorded too. -/
def PrefixInv (w : World) : Prop :=
  (∀ i : Nat, i < w.state.currentIndex → w.state.answers[i]? ≠ some none) ∧
  w.pendingAdvances ≤ 1 ∧
  (0 < w.pendingAdvances → w.state.answers[w.state.currentIndex]? ≠ some none)

/-- A fresh page on which the user `ann` is logged in. -/
def loggedInPage : World :=
  { World.initial with user := some "ann" }

/-- The session built by `setup("css")` from `malformedPool`: its only question stores
the correct index 7, so that its relocated correct index is `-1`. -/
def malformedSession : World :=
  (setup World.initial malformedPool keepOrder (fun _ => keepOrder) "css").1

/-- The sample session, started, with the first answer submitted and its deferred
advance still scheduled. -/
def sessionWithPendingAdvance : World :=
  run sampleSession [Event.start 0, Event.selectOption 3, Event.submitAnswer]

/-- A new `css` session set up and started on `sessionWithPendingAdvance` within the
feedback delay, in which option 2 has been selected. -/
def supersedingSession : World :=
  run sessionWithPendingAdvance
    [Event.setup samplePool keepOrder (fun _ => drawZero) "css", Event.start 1,
      Event.selectOption 2]

/-- The one-question `html` session of the logged-in user `ann`: the answer is submitted
in the last second, and the 60th tick ends the session while the deferred advance of
that submission is still scheduled. -/
def sessionEndedDuringFeedback : World :=
  run (setup loggedInPage samplePool keepOrder (fun _ => drawZero) "html").1
    (Event.start 0 :: List.replicate 59 (Event.tick 1 1) ++
      [Event.selectOption 2, Event.submitAnswer, Event.tick 1 60])

/-- The malformed session ended by time-up without an answer. -/
def malformedTimedOut : World :=
  run malformedSession [Event.start 0, Event.handleTimeUp 60]

/-! ## Vocabulary for the statements about well-formed pools -/

/-- Every question of the pool stores a `correct` index inside its option list, as the
data model requires (`correctIndex` in `[0, len(options))`). -/
def wellFormedPool (pool : List Question) : Bool :=
  pool.all (fun q => decide (0 ≤ q.correct ∧ q.correct < (q.options.length : Int)))

/-- The event is not a `setup` from a pool that is not well formed. -/
def wellFormedSetups : Event → Bool
  | Event.setup pool _ _ _ => wellFormedPool pool
  | _ => true

/-- No question of the session has the relocated correct index `-1`, the value
`findIndex` returns when no option is marked correct. -/
def RelocatedInv (w : World) : Prop :=
  ∀ q ∈ w.state.questions, q.shuffledOptions.correctIndex ≠ -1

/-! ## Shuffling -/

theorem swap_perm {α : Type} (a : List α) (i j : Nat) : (swap a i j).Perm a := by
  classical
  unfold swap
  split
  · next x y hx hy =>
    obtain ⟨hi, hxi⟩ := List.getElem?_eq_some_iff.mp hx
    obtain ⟨hj, hyj⟩ := List.getElem?_eq_some_iff.mp hy
    rw [List.perm_iff_count]
    intro b
    have hj2 : j < (a.set i y).length := by simpa using hj
    rw [List.count_set _ _ _ _ hj2, List.count_set _ _ _ _ hi]
    have hget : (a.set i y)[j] = y := by
      rw [List.getElem_set]
      split
      · rfl
      · exact hyj
    rw [hget, hxi]
    have hmem : x ∈ a := hxi ▸ List.getElem_mem hi
    have hpos : (x == b) = true → 0 < a.count b := by
      intro h
      have : x = b := by simpa using h
      subst this
      exact List.count_pos_iff.mpr hmem
    by_cases h1 : (x == b) = true
    · have hc := hpos h1
      by_cases h2 : (y == b) = true <;> simp [h1, h2] <;> omega
    · by_cases h2 : (y == b) = true <;> simp [h1, h2]
  · exact List.Perm.refl _

theorem shuffleLoop_perm {α : Type} (draw : Draw) (n : Nat) (a : List α) :
    (shuffleLoop draw n a).Perm a := by
  induction n generalizing a with
  | zero => exact List.Perm.refl _
  | succ i ih => exact (ih _).trans (swap_perm _ _ _)

theorem optionsWithIndex_text (c : Int) (idx : Nat) (options : List String) :
    (optionsWithIndex c idx options).map (fun opt => opt.text) = options := by
  induction options generalizing idx with
  | nil => rfl
  | cons o rest ih => simp [optionsWithIndex, ih]

theorem optionsWithIndex_correct (c : Int) (idx : Nat) (options : List String)
    (e : OptionWithIndex) (he : e ∈ optionsWithIndex c idx options) (hc : e.isCorrect = true) :
    (idx : Int) ≤ c ∧ options[(c - idx).toNat]? = some e.text := by
  induction options generalizing idx with
  | nil => simp [optionsWithIndex] at he
  | cons o rest ih =>
    simp only [optionsWithIndex, List.mem_cons] at he
    rcases he with rfl | he
    · simp only [decide_eq_true_eq] at hc
      subst hc
      simp
    · obtain ⟨h1, h2⟩ := ih (idx + 1) he
      have h3 : (c - (idx : Int)).toNat = (c - ((idx + 1 : Nat) : Int)).toNat + 1 := by
        push_cast at h1 ⊢
        omega
      refine ⟨by push_cast at h1; omega, ?_⟩
      rw [h3, List.getElem?_cons_succ]
      exact h2

theorem optionsWithIndex_exists (c : Int) (idx : Nat) (options : List String)
    (h0 : (idx : Int) ≤ c) (h1 : c < (idx : Int) + options.length) :
    ∃ e ∈ optionsWithIndex c idx options, e.isCorrect = true := by
  induction options generalizing idx with
  | nil => simp at h1; omega
  | cons o rest ih =>
    by_cases h : (idx : Int) = c
    · exact ⟨_, List.mem_cons_self _ _, by simp [h]⟩
    · obtain ⟨e, he, hc⟩ := ih (idx + 1) (by push_cast; omega)
        (by simp only [List.length_cons] at h1; push_cast at h1 ⊢; omega)
      exact ⟨e, List.mem_cons_of_mem _ he, hc⟩

/-- C1. For every option list, every `correctIndex` and every sequence of draws (each in
`[0, i]`), the options returned by `shuffleOptions` are a permutation of the given ones:
the same length and, for every text, the same number of occurrences. -/
theorem shuffleOptions_permutation (draw : Draw) (options : List String) (correctIndex : Int) :
    (shuffleOptions draw options correctIndex).options.length = options.length ∧
    (shuffleOptions draw options correctIndex).options.Perm options ∧
    ∀ text : String, (shuffleOptions draw options correctIndex).options.count text =
      options.count text := by
  have hp : (shuffleOptions draw options correctIndex).options.Perm options := by
    have h := (shuffleLoop_perm draw ((optionsWithIndex correctIndex 0 options).length - 1)
      (optionsWithIndex correctIndex 0 options)).map (fun opt => opt.text)
    rw [optionsWithIndex_text] at h
    exact h
  exact ⟨hp.length_eq, hp, fun t => hp.count_eq t⟩

/-- C2. For every option list, every `correctIndex` with `0 ≤ correctIndex < len(options)`
and every sequence of draws, the result `r` of `shuffleOptions` has
`0 ≤ r.correctIndex < len(r.options)` and `r.options[r.correctIndex]` is the text
`options[correctIndex]`; nothing is assumed about the texts being distinct. -/
theorem shuffleOptions_correctIndex (draw : Draw) (options : List String) (correctIndex : Int)
    (h0 : 0 ≤ correctIndex) (h1 : correctIndex < options.length) :
    0 ≤ (shuffleOptions draw options correctIndex).correctIndex ∧
    (shuffleOptions draw options correctIndex).correctIndex <
      (shuffleOptions draw options correctIndex).options.length ∧
    ∃ text : String, options[correctIndex.toNat]? = some text ∧
      (shuffleOptions draw options correctIndex).options[
        (shuffleOptions draw options correctIndex).correctIndex.toNat]? = some text := by
  have hperm := shuffleLoop_perm draw ((optionsWithIndex correctIndex 0 options).length - 1)
    (optionsWithIndex correctIndex 0 options)
  obtain ⟨e, he, hc⟩ := optionsWithIndex_exists correctIndex 0 options (by simpa using h0)
    (by simpa using h1)
  have hex : ∃ x, x ∈ shuffleLoop draw ((optionsWithIndex correctIndex 0 options).length - 1)
      (optionsWithIndex correctIndex 0 options) ∧ (fun opt : OptionWithIndex => opt.isCorrect) x :=
    ⟨e, hperm.mem_iff.mpr he, hc⟩
  have hfind := List.findIdx?_eq_some_of_exists hex
  obtain ⟨hlt, hp, -⟩ := List.findIdx?_eq_some_iff_getElem.mp hfind
  have hmem := hperm.mem_iff.mp (List.getElem_mem hlt)
  obtain ⟨-, htext⟩ := optionsWithIndex_correct correctIndex 0 options _ hmem hp
  simp only [shuffleOptions, findIndex, hfind]
  refine ⟨by omega, by simpa using hlt, _, by simpa using htext, ?_⟩
  simp [List.getElem?_eq_getElem hlt]

/-- Witness for C2: four options of which two carry the same text, the correct one at
index 2, shuffled with the draws `j = 0`. -/
theorem shuffleOptions_correctIndex_witness :
    (0 : Int) ≤ 2 ∧ (2 : Int) < (["red", "blue", "red", "teal"] : List String).length ∧
    (0 ≤ (shuffleOptions drawZero ["red", "blue", "red", "teal"] 2).correctIndex ∧
    (shuffleOptions drawZero ["red", "blue", "red", "teal"] 2).correctIndex <
      (shuffleOptions drawZero ["red", "blue", "red", "teal"] 2).options.length ∧
    ∃ text : String, (["red", "blue", "red", "teal"] : List String)[(2 : Int).toNat]? = some text ∧
      (shuffleOptions drawZero ["red", "blue", "red", "teal"] 2).options[
        (shuffleOptions drawZero ["red", "blue", "red", "teal"] 2).correctIndex.toNat]? =
          some text) :=
  ⟨by decide, by decide,
    shuffleOptions_correctIndex drawZero ["red", "blue", "red", "teal"] 2 (by decide) (by decide)⟩

/-! ## What the engine's methods leave alone -/

theorem stopTimer_state (w : World) :
    (stopTimer w).state = { w.state with timerInterval := none } := by
  unfold stopTimer
  split
  · rfl
  · next h => cases w with | mk s _ _ _ _ _ _ _ => cases s; simp_all

theorem stopTimer_pendingAdvances (w : World) :
    (stopTimer w).pendingAdvances = w.pendingAdvances := by
  unfold stopTimer
  split <;> rfl

theorem stopTimer_rendered (w : World) : (stopTimer w).rendered = w.rendered := by
  unfold stopTimer
  split <;> rfl

theorem endQuiz_state (w : World) (now : Nat) :
    (endQuiz w now).1.state =
      { w.state with timerInterval := none, isActive := false, endTime := some now } := by
  unfold endQuiz
  simp only [stopTimer_state]
  split
  · rfl
  · split <;> rfl

theorem markSkipped_length (answers : List (Option Int)) (i fuel : Nat) :
    (markSkipped answers i fuel).length = answers.length := by
  induction fuel generalizing answers i with
  | zero => rfl
  | succ n ih =>
    simp only [markSkipped, ih]
    split <;> simp

theorem handleTimeUp_state (w : World) (now : Nat) :
    (handleTimeUp w now).1.state =
      { w.state with
        answers := markSkipped w.state.answers w.state.currentIndex
          (w.state.questions.length - w.state.currentIndex)
        timerInterval := none, isActive := false, endTime := some now } := by
  simp only [handleTimeUp, endQuiz_state]

theorem nextQuestion_answers (w : World) (now : Nat) :
    (nextQuestion w now).1.state.answers = w.state.answers ∧
    (nextQuestion w now).1.state.questions = w.state.questions ∧
    (nextQuestion w now).1.state.score = w.state.score := by
  unfold nextQuestion
  split
  · exact ⟨rfl, rfl, rfl⟩
  · simp [endQuiz_state]

theorem submitAnswer_questions (w : World) :
    (submitAnswer w).1.state.questions = w.state.questions ∧
    (submitAnswer w).1.state.answers.length = w.state.answers.length := by
  unfold submitAnswer
  split
  · exact ⟨rfl, rfl⟩
  · split
    · exact ⟨rfl, rfl⟩
    · simp

theorem setup_lenEq (w : World) (pool : List Question) (drawQ : Draw) (drawO : Nat → Draw)
    (category : String) : LenEq (setup w pool drawQ drawO category).1 := by
  unfold setup LenEq
  simp only []
  split
  · simp [reset, State.initial]
  · simp

theorem handleTimeUp_lenEq (w : World) (now : Nat) (h : LenEq w) :
    LenEq (handleTimeUp w now).1 := by
  unfold LenEq at h ⊢
  simp [handleTimeUp_state, markSkipped_length, h]

theorem timerCallback_lenEq (w : World) (now : Nat) (h : LenEq w) :
    LenEq (timerCallback w now) := by
  unfold timerCallback
  simp only []
  split
  · exact handleTimeUp_lenEq _ now h
  · exact h

theorem nextQuestion_lenEq (w : World) (now : Nat) (h : LenEq w) :
    LenEq (nextQuestion w now).1 := by
  unfold LenEq at h ⊢
  obtain ⟨h1, h2, -⟩ := nextQuestion_answers w now
  rw [h1, h2]
  exact h

theorem advanceCallback_lenEq (w : World) (now : Nat) (h : LenEq w) :
    LenEq (advanceCallback w now) := by
  unfold advanceCallback
  exact nextQuestion_lenEq _ now h

theorem submitAnswer_lenEq (w : World) (h : LenEq w) : LenEq (submitAnswer w).1 := by
  unfold LenEq at h ⊢
  rw [(submitAnswer_questions w).1, (submitAnswer_questions w).2]
  exact h

theorem step_lenEq (w : World) (e : Event) (h : LenEq w) : LenEq (step w e) := by
  cases e with
  | reset => simp [step, reset, State.initial, LenEq]
  | setup pool drawQ drawO category => exact setup_lenEq w pool drawQ drawO category
  | start now => exact h
  | tick handle now =>
    simp only [step]
    split
    · exact timerCallback_lenEq w now h
    · exact h
  | selectOption index => exact h
  | submitAnswer => exact submitAnswer_lenEq w h
  | advance now =>
    simp only [step]
    split
    · exact advanceCallback_lenEq _ now h
    · exact h
  | nextQuestion now => exact nextQuestion_lenEq w now h
  | handleTimeUp now => exact handleTimeUp_lenEq w now h
  | endQuiz now =>
    unfold LenEq at h ⊢
    simp [step, endQuiz_state, h]

/-- C5. After a successful `setup` the answers are as many as the questions, and every
engine operation keeps `len(answers) == len(questions)`: every event of a run (`reset`,
`setup`, `start`, a timer tick, `selectOption`, `submitAnswer`, a deferred advance,
`nextQuestion`, `handleTimeUp`, `endQuiz`), and in particular the two timer callbacks
themselves. -/
theorem answers_length_invariant :
    (∀ (w : World) (pool : List Question) (drawQ : Draw) (drawO : Nat → Draw)
        (category : String), (setup w pool drawQ drawO category).2 = true →
        LenEq (setup w pool drawQ drawO category).1) ∧
    (∀ (w : World) (e : Event), LenEq w → LenEq (step w e)) ∧
    (∀ (w : World) (now : Nat), LenEq w → LenEq (timerCallback w now)) ∧
    (∀ (w : World) (now : Nat), LenEq w → LenEq (advanceCallback w now)) :=
  ⟨fun w pool drawQ drawO category _ => setup_lenEq w pool drawQ drawO category, step_lenEq,
    timerCallback_lenEq, advanceCallback_lenEq⟩

/-- Witness for C5: the sample session after `setup`, after a selection and a
submission, and after the deferred advance that follows. -/
theorem answers_length_invariant_witness :
    (setup World.initial samplePool keepOrder (fun _ => drawZero) "css").2 = true ∧
    LenEq (setup World.initial samplePool keepOrder (fun _ => drawZero) "css").1 ∧
    LenEq (step (step (setup World.initial samplePool keepOrder (fun _ => drawZero) "css").1
      (Event.selectOption 1)) Event.submitAnswer) ∧
    LenEq (advanceCallback (step (step
      (setup World.initial samplePool keepOrder (fun _ => drawZero) "css").1
      (Event.selectOption 1)) Event.submitAnswer) 1) :=
  ⟨by decide,
    answers_length_invariant.1 World.initial samplePool keepOrder (fun _ => drawZero) "css"
      (by decide),
    answers_length_invariant.2.1 _ Event.submitAnswer
      (answers_length_invariant.2.1 _ (Event.selectOption 1)
        (answers_length_invariant.1 World.initial samplePool keepOrder (fun _ => drawZero)
          "css" (by decide))),
    answers_length_invariant.2.2.2 _ 1
      (answers_length_invariant.2.1 _ Event.submitAnswer
        (answers_length_invariant.2.1 _ (Event.selectOption 1)
          (answers_length_invariant.1 World.initial samplePool keepOrder (fun _ => drawZero)
            "css" (by decide))))⟩

/-- C6. With no option selected, `submitAnswer()` returns `false` and changes nothing:
the state (so `answers[currentIndex]`, `score` and `currentIndex`) is the same and no
deferred advance is scheduled. -/
theorem submitAnswer_without_selection (w : World) (h : w.state.selectedOption = none) :
    submitAnswer w = (w, SubmitOutcome.returned false) ∧
    (submitAnswer w).1.state.answers[w.state.currentIndex]? =
      w.state.answers[w.state.currentIndex]? ∧
    (submitAnswer w).1.state.score = w.state.score ∧
    (submitAnswer w).1.state.currentIndex = w.state.currentIndex ∧
    (submitAnswer w).1.pendingAdvances = w.pendingAdvances := by
  have h1 : submitAnswer w = (w, SubmitOutcome.returned false) := by
    unfold submitAnswer
    rw [h]
  rw [h1]
  exact ⟨rfl, rfl, rfl, rfl, rfl⟩

/-- Witness for C6: the sample session right after `setup`, where nothing is selected
and the current answer is unset. -/
theorem submitAnswer_without_selection_witness :
    sampleSession.state.selectedOption = none ∧
    sampleSession.state.answers[sampleSession.state.currentIndex]? = some none ∧
    submitAnswer sampleSession = (sampleSession, SubmitOutcome.returned false) :=
  ⟨by decide, by decide, (submitAnswer_without_selection sampleSession (by decide)).1⟩

/-! ## Counting the right answers -/

theorem countCorrect_le (questions : List PresentedQuestion) (answers : List (Option Int)) :
    countCorrect questions answers ≤ answers.length ∧
    countCorrect questions answers ≤ questions.length := by
  induction questions generalizing answers with
  | nil => simp [countCorrect]
  | cons q qs ih =>
    cases answers with
    | nil => simp [countCorrect]
    | cons a rest =>
      obtain ⟨h1, h2⟩ := ih rest
      simp only [countCorrect, List.length_cons]
      split <;> omega

theorem tally_eq (questions : List PresentedQuestion) (answers : List (Option Int))
    (idx : Nat) (acc : Nat × Nat) (h : answers.length + idx ≤ questions.length) :
    tally questions answers idx acc =
      some (acc.1 + countCorrect (questions.drop idx) answers,
        acc.2 + (answers.length - countCorrect (questions.drop idx) answers)) := by
  induction answers generalizing idx acc with
  | nil => cases acc; simp [tally, countCorrect]
  | cons a rest ih =>
    obtain ⟨c, wr⟩ := acc
    simp only [List.length_cons] at h
    have hidx : idx < questions.length := by omega
    have hdrop : questions.drop idx = questions[idx] :: questions.drop (idx + 1) :=
      List.drop_eq_getElem_cons hidx
    have hle := (countCorrect_le (questions.drop (idx + 1)) rest).1
    have hrest := fun acc => ih (idx + 1) acc (by omega)
    rw [hdrop]
    simp only [tally, countCorrect, List.length_cons, List.getElem?_eq_getElem hidx]
    by_cases h1 : a = some (-1) ∨ a = none
    · have hr : isRight questions[idx] a = false := by
        simp only [isRight, decide_eq_false_iff_not]
        rcases h1 with h1 | h1 <;> simp [h1]
      simp only [h1, if_true, hrest, hr]
      simp only [Bool.false_eq_true, if_false, Option.some.injEq, Prod.mk.injEq]
      omega
    · simp only [h1, if_false]
      by_cases h2 : a = some questions[idx].shuffledOptions.correctIndex
      · have hr : isRight questions[idx] a = true := by
          simp only [isRight, decide_eq_true_eq]
          exact ⟨fun h => h1 (Or.inl h), fun h => h1 (Or.inr h), h2⟩
        simp only [h2, if_true, hrest, hr] at hr ⊢
        simp only [hr, if_true, Option.some.injEq, Prod.mk.injEq]
        omega
      · have hr : isRight questions[idx] a = false := by
          simp only [isRight, decide_eq_false_iff_not]
          exact fun h => h2 h.2.2
        simp only [h2, if_false, hrest, hr]
        simp only [Bool.false_eq_true, if_false, Option.some.injEq, Prod.mk.injEq]
        omega

theorem calculateResults_eq (s : State) (h : s.answers.length ≤ s.questions.length) :
    calculateResults s = some
      { score := s.score
        correct := countCorrect s.questions s.answers
        wrong := s.answers.length - countCorrect s.questions s.answers
        total := s.questions.length
        percentage := percentage (countCorrect s.questions s.answers) s.questions.length
        timeTaken := (s.totalTime : Int) - s.timeRemaining
        category := s.category } := by
  unfold calculateResults
  rw [tally_eq s.questions s.answers 0 (0, 0) (by simpa using h)]
  simp

/-! ## Ending a session -/

theorem calculateResults_congr (s t : State) (hq : t.questions = s.questions)
    (ha : t.answers = s.answers) (hs : t.score = s.score) (ht : t.totalTime = s.totalTime)
    (hr : t.timeRemaining = s.timeRemaining) (hc : t.category = s.category) :
    calculateResults t = calculateResults s := by
  unfold calculateResults
  rw [hq, ha, hs, ht, hr, hc]

theorem endQuiz_results (w : World) (now : Nat) :
    (endQuiz w now).2 = calculateResults w.state := by
  have h : calculateResults
      { (stopTimer w).state with isActive := false, endTime := some now } =
      calculateResults w.state :=
    calculateResults_congr _ _ (by simp [stopTimer_state]) (by simp [stopTimer_state])
      (by simp [stopTimer_state]) (by simp [stopTimer_state]) (by simp [stopTimer_state])
      (by simp [stopTimer_state])
  unfold endQuiz
  simp only [h]
  split
  · next hn => exact hn.symm
  · next r hr => exact hr.symm

theorem percentage_isSome (correct total : Nat) (h : total ≠ 0) :
    percentage correct total ≠ none := by
  simp [percentage, h]

/-- C10. Calling `endQuiz()` twice in a row returns the same `Results` (every field:
score, correct, wrong, total, percentage, timeTaken, category), and the second call
changes neither `score` nor `answers`. When the answers are not more than the questions
a `Results` is indeed returned (no exception), and its percentage is a number unless
there is no question at all. -/
theorem endQuiz_idempotent (w : World) (now1 now2 : Nat) :
    (endQuiz (endQuiz w now1).1 now2).2 = (endQuiz w now1).2 ∧
    (endQuiz (endQuiz w now1).1 now2).1.state.score = (endQuiz w now1).1.state.score ∧
    (endQuiz (endQuiz w now1).1 now2).1.state.answers = (endQuiz w now1).1.state.answers ∧
    (w.state.answers.length ≤ w.state.questions.length →
      ∃ r, (endQuiz w now1).2 = some r ∧ (endQuiz (endQuiz w now1).1 now2).2 = some r ∧
        (w.state.questions ≠ [] → r.percentage ≠ none)) := by
  have h12 : (endQuiz (endQuiz w now1).1 now2).2 = (endQuiz w now1).2 := by
    rw [endQuiz_results, endQuiz_results]
    exact calculateResults_congr _ _ (by simp [endQuiz_state]) (by simp [endQuiz_state])
      (by simp [endQuiz_state]) (by simp [endQuiz_state]) (by simp [endQuiz_state])
      (by simp [endQuiz_state])
  refine ⟨h12, by simp [endQuiz_state], by simp [endQuiz_state], fun hlen => ?_⟩
  rw [h12, endQuiz_results, calculateResults_eq w.state hlen]
  refine ⟨_, rfl, rfl, fun hq => ?_⟩
  exact percentage_isSome _ _ (by simpa using hq)

/-- Witness for C10: the sample session with its first answer submitted, ended twice. -/
theorem endQuiz_idempotent_witness :
    (run sampleSession [Event.selectOption 3, Event.submitAnswer]).state.answers.length ≤
      (run sampleSession [Event.selectOption 3, Event.submitAnswer]).state.questions.length ∧
    (endQuiz (run sampleSession [Event.selectOption 3, Event.submitAnswer]) 7).2 =
      some { score := 10, correct := 1, wrong := 2, total := 3, percentage := some 33,
             timeTaken := 0, category := some "css" } ∧
    ∃ r, (endQuiz (run sampleSession [Event.selectOption 3, Event.submitAnswer]) 7).2 =
        some r ∧
      (endQuiz (endQuiz (run sampleSession [Event.selectOption 3, Event.submitAnswer]) 7).1
        9).2 = some r ∧
      ((run sampleSession [Event.selectOption 3, Event.submitAnswer]).state.questions ≠ [] →
        r.percentage ≠ none) :=
  ⟨by decide, by decide,
    (endQuiz_idempotent (run sampleSession [Event.selectOption 3, Event.submitAnswer])
      7 9).2.2.2 (by decide)⟩

/-! ## Selecting -/

/-- C7, counterexample. The current question of the sample session presents 4 options
and nothing is selected; `selectOption(5)` is not rejected: it stores 5. -/
theorem selectOption_invalid_counterexample :
    (getCurrentQuestion sampleSession.state).map
      (fun q => q.shuffledOptions.options.length) = some 4 ∧
    sampleSession.state.selectedOption = none ∧
    (selectOption sampleSession 5).state.selectedOption = some 5 ∧
    (selectOption sampleSession 5).state ≠ sampleSession.state := by
  decide

/-- C7, amended. `selectOption(index)` makes no range check: for every state and every
index, inside or outside the presented options, it sets `selectedOption = index` and
changes nothing else (answers, score, current index, questions, timing fields and
scheduled timers are as before). -/
theorem selectOption_effect (w : World) (index : Int) :
    (selectOption w index).state.selectedOption = some index ∧
    (selectOption w index).state = { w.state with selectedOption := some index } ∧
    (selectOption w index).state.answers = w.state.answers ∧
    (selectOption w index).state.score = w.state.score ∧
    (selectOption w index).state.currentIndex = w.state.currentIndex ∧
    (selectOption w index).state.questions = w.state.questions ∧
    (selectOption w index).state.timeRemaining = w.state.timeRemaining ∧
    (selectOption w index).state.isActive = w.state.isActive ∧
    (selectOption w index).intervals = w.intervals ∧
    (selectOption w index).pendingAdvances = w.pendingAdvances ∧
    (selectOption w index).rendered = w.rendered :=
  ⟨rfl, rfl, rfl, rfl, rfl, rfl, rfl, rfl, rfl, rfl, rfl⟩

/-! ## Time-up -/

theorem markSkipped_getElem? (answers : List (Option Int)) (i fuel k : Nat) :
    (markSkipped answers i fuel)[k]? =
      if i ≤ k ∧ k < i + fuel ∧ answers[k]? = some none then some (some (-1))
      else answers[k]? := by
  induction fuel generalizing answers i with
  | zero =>
    have h0 : ¬(i ≤ k ∧ k < i + 0 ∧ answers[k]? = some none) := fun h => by omega
    simp only [markSkipped, if_neg h0]
  | succ n ih =>
    simp only [markSkipped, ih]
    by_cases hi : answers[i]? = some none
    · have hlt : i < answers.length := by
        obtain ⟨h, -⟩ := List.getElem?_eq_some_iff.mp hi
        exact h
      simp only [hi, if_true, List.getElem?_set]
      by_cases hk : i = k
      · subst hk
        have h1 : ¬(i + 1 ≤ i ∧ i < i + 1 + n ∧
            (if i < answers.length then some (some (-1 : Int)) else none) = some none) := by
          omega
        have h2 : i ≤ i ∧ i < i + (n + 1) ∧ answers[i]? = some none := ⟨le_refl _, by omega, hi⟩
        simp [h2, hlt]
      · simp only [hk, if_false]
        by_cases hc : answers[k]? = some none
        · by_cases hr : i + 1 ≤ k ∧ k < i + 1 + n
          · have h2 : i ≤ k ∧ k < i + (n + 1) ∧ answers[k]? = some none := ⟨by omega, by omega, hc⟩
            simp [hr, hc, h2]
          · have h1 : ¬(i + 1 ≤ k ∧ k < i + 1 + n ∧ answers[k]? = some none) :=
              fun h => hr ⟨h.1, h.2.1⟩
            have h2 : ¬(i ≤ k ∧ k < i + (n + 1) ∧ answers[k]? = some none) := by
              intro h
              exact hr ⟨by omega, by omega⟩
            simp [h1, h2]
        · have h1 : ¬(i + 1 ≤ k ∧ k < i + 1 + n ∧ answers[k]? = some none) := fun h => hc h.2.2
          have h2 : ¬(i ≤ k ∧ k < i + (n + 1) ∧ answers[k]? = some none) := fun h => hc h.2.2
          simp [h1, h2]
    · simp only [hi, if_false]
      by_cases hc : answers[k]? = some none
      · have hk : i ≠ k := by
          rintro rfl
          exact hi hc
        by_cases hr : i + 1 ≤ k ∧ k < i + 1 + n
        · have h2 : i ≤ k ∧ k < i + (n + 1) ∧ answers[k]? = some none := ⟨by omega, by omega, hc⟩
          simp [hr, hc, h2]
        · have h1 : ¬(i + 1 ≤ k ∧ k < i + 1 + n ∧ answers[k]? = some none) :=
            fun h => hr ⟨h.1, h.2.1⟩
          have h2 : ¬(i ≤ k ∧ k < i + (n + 1) ∧ answers[k]? = some none) := by
            intro h
            exact hr ⟨by omega, by omega⟩
          simp [h1, h2]
      · have h1 : ¬(i + 1 ≤ k ∧ k < i + 1 + n ∧ answers[k]? = some none) := fun h => hc h.2.2
        have h2 : ¬(i ≤ k ∧ k < i + (n + 1) ∧ answers[k]? = some none) := fun h => hc h.2.2
        simp [h1, h2]

/-- C8, counterexample. In the sample session the first answer is submitted twice before
the first deferred advance fires; the two advances move to the third question while the
second answer is unset, and `handleTimeUp()` leaves it unset. -/
theorem handleTimeUp_counterexample :
    (setup World.initial samplePool keepOrder (fun _ => drawZero) "css").2 = true ∧
    (run sampleSession
      [Event.start 0, Event.selectOption 3, Event.submitAnswer, Event.submitAnswer,
        Event.advance 1, Event.advance 1]).state.currentIndex = 2 ∧
    (run sampleSession
      [Event.start 0, Event.selectOption 3, Event.submitAnswer, Event.submitAnswer,
        Event.advance 1, Event.advance 1]).state.answers = [some 3, none, none] ∧
    (handleTimeUp (run sampleSession
      [Event.start 0, Event.selectOption 3, Event.submitAnswer, Event.submitAnswer,
        Event.advance 1, Event.advance 1]) 5).1.state.answers = [some 3, none, some (-1)] := by
  decide

/-- C8, amended. For every state, `handleTimeUp()` turns every unset entry of `answers`
at an index from `currentIndex` up to the last question into the skipped sentinel `-1`
and changes no other entry, and it leaves `score` as it is. So no entry is unset
afterwards provided every entry below `currentIndex` was recorded (and the answers are
not more than the questions). -/
theorem handleTimeUp_answers (w : World) (now : Nat) :
    (handleTimeUp w now).1.state.score = w.state.score ∧
    (handleTimeUp w now).1.state.answers.length = w.state.answers.length ∧
    (∀ k : Nat, (handleTimeUp w now).1.state.answers[k]? =
      if w.state.currentIndex ≤ k ∧ k < w.state.questions.length ∧
          w.state.answers[k]? = some none then some (some (-1))
      else w.state.answers[k]?) ∧
    (w.state.answers.length ≤ w.state.questions.length →
      (∀ k : Nat, k < w.state.currentIndex → w.state.answers[k]? ≠ some none) →
      none ∉ (handleTimeUp w now).1.state.answers) := by
  have hchar : ∀ k : Nat, (handleTimeUp w now).1.state.answers[k]? =
      if w.state.currentIndex ≤ k ∧ k < w.state.questions.length ∧
          w.state.answers[k]? = some none then some (some (-1))
      else w.state.answers[k]? := by
    intro k
    simp only [handleTimeUp_state, markSkipped_getElem?]
    by_cases hc : w.state.currentIndex ≤ k ∧ k < w.state.questions.length ∧
        w.state.answers[k]? = some none
    · have : w.state.currentIndex ≤ k ∧
          k < w.state.currentIndex + (w.state.questions.length - w.state.currentIndex) ∧
          w.state.answers[k]? = some none := ⟨hc.1, by omega, hc.2.2⟩
      simp [hc, this]
    · have : ¬(w.state.currentIndex ≤ k ∧
          k < w.state.currentIndex + (w.state.questions.length - w.state.currentIndex) ∧
          w.state.answers[k]? = some none) := by
        intro h
        exact hc ⟨h.1, by omega, h.2.2⟩
      simp [hc, this]
  refine ⟨by simp [handleTimeUp_state], by simp [handleTimeUp_state, markSkipped_length],
    hchar, fun hlen hbelow hmem => ?_⟩
  obtain ⟨k, hk⟩ := List.mem_iff_getElem?.mp hmem
  rw [hchar k] at hk
  split at hk
  · simp at hk
  · next hc =>
    by_cases h1 : k < w.state.currentIndex
    · exact hbelow k h1 hk
    · obtain ⟨hlt, -⟩ := List.getElem?_eq_some_iff.mp hk
      exact hc ⟨by omega, by omega, hk⟩

/-- Witness for C8 (amended): the sample session with its first answer submitted and the
advance done, so that the only entry below `currentIndex` is recorded. -/
theorem handleTimeUp_answers_witness :
    (run sampleSession [Event.selectOption 0, Event.submitAnswer,
      Event.advance 1]).state.answers.length ≤
      (run sampleSession [Event.selectOption 0, Event.submitAnswer,
        Event.advance 1]).state.questions.length ∧
    (∀ k : Nat, k < (run sampleSession [Event.selectOption 0, Event.submitAnswer,
        Event.advance 1]).state.currentIndex →
      (run sampleSession [Event.selectOption 0, Event.submitAnswer,
        Event.advance 1]).state.answers[k]? ≠ some none) ∧
    none ∉ (handleTimeUp (run sampleSession [Event.selectOption 0, Event.submitAnswer,
      Event.advance 1]) 5).1.state.answers :=
  ⟨by decide, by decide,
    (handleTimeUp_answers (run sampleSession [Event.selectOption 0, Event.submitAnswer,
      Event.advance 1]) 5).2.2.2 (by decide) (by decide)⟩

set_option maxRecDepth 100000 in
/-- C9, counterexample. A one-question session (category `html`) is started and its 60
timer ticks run, which ends it by time-up with the answer skipped and nothing selected.
After that `selectOption(2)` still changes `selectedOption`, and `submitAnswer()` then
returns `true`, overwrites the skipped answer and adds 10 points. -/
theorem input_after_timeUp_counterexample :
    (setup World.initial samplePool keepOrder (fun _ => drawZero) "html").2 = true ∧
    timedOutSession.state.isActive = false ∧
    timedOutSession.state.timeRemaining = 0 ∧
    timedOutSession.state.answers = [some (-1)] ∧
    timedOutSession.state.selectedOption = none ∧
    timedOutSession.state.score = 0 ∧
    (selectOption timedOutSession 2).state.selectedOption = some 2 ∧
    (submitAnswer (selectOption timedOutSession 2)).2 = SubmitOutcome.returned true ∧
    (submitAnswer (selectOption timedOutSession 2)).1.state.answers = [some 2] ∧
    (submitAnswer (selectOption timedOutSession 2)).1.state.score = 10 := by
  decide

/-- C9, amended. Once the time-up transition has ended a session, `isActive` is false and
the stored timer is cancelled, but the engine does not reject later calls: time-up keeps
`selectedOption` as it was, `selectOption(i)` still sets `selectedOption = i` (without
touching answers or score), and `submitAnswer()` returns `false` exactly when
`selectedOption` is unset, in which case it changes nothing. -/
theorem input_after_timeUp (w : World) (now : Nat) :
    (handleTimeUp w now).1.state.isActive = false ∧
    (handleTimeUp w now).1.state.timerInterval = none ∧
    (handleTimeUp w now).1.state.selectedOption = w.state.selectedOption ∧
    (∀ index : Int,
      (selectOption (handleTimeUp w now).1 index).state.selectedOption = some index ∧
      (selectOption (handleTimeUp w now).1 index).state.answers =
        (handleTimeUp w now).1.state.answers ∧
      (selectOption (handleTimeUp w now).1 index).state.score =
        (handleTimeUp w now).1.state.score) ∧
    ((submitAnswer (handleTimeUp w now).1).2 = SubmitOutcome.returned false ↔
      (handleTimeUp w now).1.state.selectedOption = none) ∧
    ((handleTimeUp w now).1.state.selectedOption = none →
      submitAnswer (handleTimeUp w now).1 =
        ((handleTimeUp w now).1, SubmitOutcome.returned false)) := by
  refine ⟨by simp [handleTimeUp_state], by simp [handleTimeUp_state],
    by simp [handleTimeUp_state], fun index => ⟨rfl, rfl, rfl⟩, ?_, ?_⟩
  · generalize (handleTimeUp w now).1 = v
    unfold submitAnswer
    split
    · next h => simp [h]
    · next s h =>
      split <;> simp [h]
  · intro h
    unfold submitAnswer
    rw [h]

/-- Witness for C9 (amended): the sample session ended by time-up with nothing
selected. -/
theorem input_after_timeUp_witness :
    (handleTimeUp sampleSession 5).1.state.selectedOption = none ∧
    submitAnswer (handleTimeUp sampleSession 5).1 =
      ((handleTimeUp sampleSession 5).1, SubmitOutcome.returned false) :=
  ⟨by decide, (input_after_timeUp sampleSession 5).2.2.2.2.2 (by decide)⟩

/-! ## The scoring invariant -/

theorem countCorrect_replicate_none (questions : List PresentedQuestion) (n : Nat) :
    countCorrect questions (List.replicate n none) = 0 := by
  induction questions generalizing n with
  | nil => simp [countCorrect]
  | cons q qs ih =>
    cases n with
    | zero => simp [countCorrect]
    | succ m => simp [List.replicate_succ, countCorrect, isRight, ih]

theorem countCorrect_set (questions : List PresentedQuestion) (answers : List (Option Int))
    (k : Nat) (v old : Option Int) (q : PresentedQuestion) (hq : questions[k]? = some q)
    (ha : answers[k]? = some old) :
    countCorrect questions (answers.set k v) + (if isRight q old then 1 else 0) =
      countCorrect questions answers + (if isRight q v then 1 else 0) := by
  induction questions generalizing answers k with
  | nil => simp at hq
  | cons q0 qs ih =>
    cases answers with
    | nil => simp at ha
    | cons a rest =>
      cases k with
      | zero =>
        simp only [List.getElem?_cons_zero, Option.some.injEq] at hq ha
        subst hq ha
        simp only [List.set_cons_zero, countCorrect]
        omega
      | succ j =>
        simp only [List.getElem?_cons_succ] at hq ha
        have := ih rest j hq ha
        simp only [List.set_cons_succ, countCorrect]
        omega

theorem countCorrect_set_wrong (questions : List PresentedQuestion)
    (answers : List (Option Int)) (k : Nat) (v old : Option Int)
    (ha : answers[k]? = some old) (hold : ∀ q, isRight q old = false)
    (hv : ∀ q, isRight q v = false) :
    countCorrect questions (answers.set k v) = countCorrect questions answers := by
  induction questions generalizing answers k with
  | nil => simp [countCorrect]
  | cons q0 qs ih =>
    cases answers with
    | nil => simp at ha
    | cons a rest =>
      cases k with
      | zero =>
        simp only [List.getElem?_cons_zero, Option.some.injEq] at ha
        subst ha
        simp [countCorrect, hold, hv]
      | succ j =>
        simp only [List.getElem?_cons_succ] at ha
        simp [countCorrect, ih rest j ha]

theorem countCorrect_markSkipped (questions : List PresentedQuestion)
    (answers : List (Option Int)) (i fuel : Nat) :
    countCorrect questions (markSkipped answers i fuel) = countCorrect questions answers := by
  induction fuel generalizing answers i with
  | zero => rfl
  | succ n ih =>
    simp only [markSkipped, ih]
    split
    · next h =>
      exact countCorrect_set_wrong questions answers i _ none h (fun q => by simp [isRight])
        (fun q => by simp [isRight])
    · rfl

theorem endQuiz_rendered (w : World) (now : Nat) :
    (endQuiz w now).1.rendered =
      match calculateResults w.state with
      | some r => w.rendered ++ [r]
      | none => w.rendered := by
  have h := endQuiz_results w now
  unfold endQuiz at h ⊢
  simp only [] at h ⊢
  split at h
  · next hn =>
    simp only [← h, stopTimer_rendered]
  · next r hr =>
    simp only [← h]
    split <;> simp [stopTimer_rendered]

theorem endQuiz_scoreInv (w : World) (now : Nat) (h : ScoreInv w) :
    ScoreInv (endQuiz w now).1 ∧ RendersLawful w (endQuiz w now).1 := by
  obtain ⟨h1, h2, h3⟩ := h
  refine ⟨⟨?_, ?_, ?_⟩, Or.inr ?_⟩
  · simpa [LenEq, endQuiz_state] using h1
  · simpa [endQuiz_state] using h2
  · simpa [endQuiz_state] using h3
  · rw [endQuiz_rendered, calculateResults_eq w.state (le_of_eq h1)]
    exact ⟨_, rfl, h2⟩

theorem handleTimeUp_scoreInv (w : World) (now : Nat) (h : ScoreInv w) :
    ScoreInv (handleTimeUp w now).1 ∧ RendersLawful w (handleTimeUp w now).1 := by
  obtain ⟨h1, h2, h3⟩ := h
  unfold handleTimeUp
  exact endQuiz_scoreInv _ now
    ⟨by simpa [LenEq, markSkipped_length] using h1,
     by simpa [countCorrect_markSkipped] using h2, h3⟩

theorem nextQuestion_scoreInv (w : World) (now : Nat) (h : ScoreInv w) :
    ScoreInv (nextQuestion w now).1 ∧ RendersLawful w (nextQuestion w now).1 := by
  unfold nextQuestion
  split
  · exact ⟨h, Or.inl rfl⟩
  · exact endQuiz_scoreInv w now h

theorem submitAnswer_scoreInv (w : World) (h : ScoreInv w)
    (hp : w.state.answers[w.state.currentIndex]? = some none) :
    ScoreInv (submitAnswer w).1 ∧ RendersLawful w (submitAnswer w).1 := by
  obtain ⟨h1, h2, h3⟩ := h
  unfold submitAnswer
  split
  · exact ⟨⟨h1, h2, h3⟩, Or.inl rfl⟩
  · next s hs =>
    split
    · exact ⟨⟨h1, h2, h3⟩, Or.inl rfl⟩
    · next q hq =>
      refine ⟨⟨?_, ?_, ?_⟩, Or.inl rfl⟩
      · simpa [LenEq] using h1
      · have hset := countCorrect_set w.state.questions w.state.answers w.state.currentIndex
          (some s) none q hq hp
        have hs0 : 0 ≤ s := h3 s hs
        have hnone : isRight q none = false := by simp [isRight]
        have hsome : isRight q (some s) = decide (s = q.shuffledOptions.correctIndex) := by
          have : s ≠ -1 := by omega
          simp [isRight, this]
        rw [hnone, hsome] at hset
        simp only [Bool.false_eq_true, if_false, Nat.add_zero] at hset
        simp only [hset, h2]
        by_cases hc : s = q.shuffledOptions.correctIndex
        · simp [hc, Nat.add_mul]
        · simp [hc]
      · simpa using h3

theorem setup_scoreInv (w : World) (pool : List Question) (drawQ : Draw) (drawO : Nat → Draw)
    (category : String) :
    ScoreInv (setup w pool drawQ drawO category).1 ∧
    (setup w pool drawQ drawO category).1.rendered = w.rendered := by
  refine ⟨⟨setup_lenEq w pool drawQ drawO category, ?_, ?_⟩, ?_⟩
  · simp only [setup]
    split
    · simp [reset, State.initial, countCorrect]
    · simp [reset, State.initial, countCorrect_replicate_none]
  · simp only [setup]
    split <;> simp [reset, State.initial]
  · simp only [setup]
    split <;> simp [reset, stopTimer_rendered]

theorem step_scoreInv (w : World) (e : Event) (h : ScoreInv w) (hp : permitted w e = true) :
    ScoreInv (step w e) ∧ RendersLawful w (step w e) := by
  cases e with
  | reset =>
    refine ⟨⟨?_, ?_, ?_⟩, Or.inl ?_⟩
    · simp [step, reset, LenEq, State.initial]
    · simp [step, reset, State.initial, countCorrect]
    · simp [step, reset, State.initial]
    · simp [step, reset, stopTimer_rendered]
  | setup pool drawQ drawO category =>
    exact ⟨(setup_scoreInv w pool drawQ drawO category).1,
      Or.inl (setup_scoreInv w pool drawQ drawO category).2⟩
  | start now => exact ⟨h, Or.inl rfl⟩
  | tick handle now =>
    simp only [step]
    split
    · unfold timerCallback
      simp only []
      split
      · exact handleTimeUp_scoreInv _ now h
      · exact ⟨h, Or.inl rfl⟩
    · exact ⟨h, Or.inl rfl⟩
  | selectOption index =>
    obtain ⟨h1, h2, -⟩ := h
    refine ⟨⟨h1, h2, ?_⟩, Or.inl rfl⟩
    intro s hs
    simp only [step, selectOption, Option.some.injEq] at hs
    simp only [permitted, decide_eq_true_eq] at hp
    omega
  | submitAnswer =>
    simp only [permitted, decide_eq_true_eq] at hp
    exact submitAnswer_scoreInv w h hp
  | advance now =>
    simp only [step]
    split
    · obtain ⟨h1, h2, -⟩ := h
      exact nextQuestion_scoreInv
        { w with pendingAdvances := w.pendingAdvances - 1,
                 state := { w.state with selectedOption := none } } now
        ⟨h1, h2, by simp⟩
    · exact ⟨h, Or.inl rfl⟩
  | nextQuestion now => exact nextQuestion_scoreInv w now h
  | handleTimeUp now => exact handleTimeUp_scoreInv w now h
  | endQuiz now => exact endQuiz_scoreInv w now h

theorem run_scoreInv (w : World) (events : List Event) (h : ScoreInv w)
    (hd : disciplined w events = true) :
    ScoreInv (run w events) ∧
    ∃ new : List Results, (run w events).rendered = w.rendered ++ new ∧
      ∀ r ∈ new, r.score = r.correct * POINTS_CORRECT := by
  induction events generalizing w with
  | nil => exact ⟨h, [], by simp [run], by simp⟩
  | cons e es ih =>
    simp only [disciplined, Bool.and_eq_true] at hd
    obtain ⟨hinv, hlaw⟩ := step_scoreInv w e h hd.1
    obtain ⟨hfin, new, hnew, hall⟩ := ih (step w e) hinv hd.2
    refine ⟨hfin, ?_⟩
    rcases hlaw with hsame | ⟨r, hr, hrlaw⟩
    · exact ⟨new, by simpa [run, hsame] using hnew, hall⟩
    · refine ⟨r :: new, ?_, ?_⟩
      · have : (run w (e :: es)).rendered = (step w e).rendered ++ new := hnew
        rw [this, hr]
        simp
      · intro r' hr'
        rcases List.mem_cons.mp hr' with rfl | hmem
        · exact hrlaw
        · exact hall r' hmem

/-- C3, counterexample. In a one-question session the correct option (index 2) is
selected and `submitAnswer()` is called twice before the deferred advance fires. The
advance then ends the quiz, and the `Results` have `score == 20` with `correct == 1`. -/
theorem scoring_law_counterexample :
    (setup World.initial samplePool keepOrder (fun _ => drawZero) "html").2 = true ∧
    (run (setup World.initial samplePool keepOrder (fun _ => drawZero) "html").1
      [Event.start 0, Event.selectOption 2, Event.submitAnswer, Event.submitAnswer,
        Event.advance 1]).rendered =
      [{ score := 20, correct := 1, wrong := 0, total := 1, percentage := some 100,
         timeTaken := 0, category := some "html" }] ∧
    (20 : Nat) ≠ 1 * POINTS_CORRECT := by
  decide

/-- Why the amended scoring law asks for non-negative selections: a stored question whose
`correct` index is outside its options gets the relocated index `-1`; after
`selectOption(-1)` a submission earns 10 points but records the skipped sentinel, which
`calculateResults` counts as wrong. -/
theorem negative_selection_scores :
    (setup World.initial malformedPool keepOrder (fun _ => keepOrder) "css").2 = true ∧
    (run (setup World.initial malformedPool keepOrder (fun _ => keepOrder) "css").1
      [Event.start 0, Event.selectOption (-1), Event.submitAnswer,
        Event.advance 1]).rendered =
      [{ score := 10, correct := 0, wrong := 1, total := 1, percentage := some 0,
         timeTaken := 0, category := some "css" }] := by
  decide

/-- C3, amended. Take a session that starts from `setup` and is driven by any sequence
of events (`start`, timer ticks, `selectOption`, `submitAnswer`, deferred advances, and
the other methods) in which every `selectOption` index is non-negative and every
`submitAnswer` is called while `answers[currentIndex]` is still unset, as the quiz screen
guarantees. Then every `Results` that `endQuiz` returns during the session satisfies
`score == correct * POINTS_CORRECT`. -/
theorem scoring_law (w0 : World) (pool : List Question) (drawQ : Draw) (drawO : Nat → Draw)
    (category : String) (events : List Event)
    (hd : disciplined (setup w0 pool drawQ drawO category).1 events = true) :
    ∃ new : List Results,
      (run (setup w0 pool drawQ drawO category).1 events).rendered = w0.rendered ++ new ∧
      ∀ r ∈ new, r.score = r.correct * POINTS_CORRECT := by
  obtain ⟨hinv, hrend⟩ := setup_scoreInv w0 pool drawQ drawO category
  obtain ⟨-, new, hnew, hall⟩ := run_scoreInv _ events hinv hd
  exact ⟨new, by rw [hnew, hrend], hall⟩

/-- Witness for C3 (amended): the sample session; the first question is answered
correctly, the second wrongly, and the third is skipped by a direct time-up. -/
theorem scoring_law_witness :
    disciplined (setup World.initial samplePool keepOrder (fun _ => drawZero) "css").1
      [Event.start 0, Event.selectOption 3, Event.submitAnswer, Event.advance 1,
        Event.selectOption 3, Event.submitAnswer, Event.advance 2,
        Event.handleTimeUp 3] = true ∧
    (run (setup World.initial samplePool keepOrder (fun _ => drawZero) "css").1
      [Event.start 0, Event.selectOption 3, Event.submitAnswer, Event.advance 1,
        Event.selectOption 3, Event.submitAnswer, Event.advance 2,
        Event.handleTimeUp 3]).rendered =
      [{ score := 10, correct := 1, wrong := 2, total := 3, percentage := some 33,
         timeTaken := 0, category := some "css" }] ∧
    ∃ new : List Results,
      (run (setup World.initial samplePool keepOrder (fun _ => drawZero) "css").1
        [Event.start 0, Event.selectOption 3, Event.submitAnswer, Event.advance 1,
          Event.selectOption 3, Event.submitAnswer, Event.advance 2,
          Event.handleTimeUp 3]).rendered = World.initial.rendered ++ new ∧
      ∀ r ∈ new, r.score = r.correct * POINTS_CORRECT :=
  ⟨by decide, by decide,
    scoring_law World.initial samplePool keepOrder (fun _ => drawZero) "css"
      [Event.start 0, Event.selectOption 3, Event.submitAnswer, Event.advance 1,
        Event.selectOption 3, Event.submitAnswer, Event.advance 2,
        Event.handleTimeUp 3] (by decide)⟩

/-! ## The percentage -/

theorem presentQuestions_length (drawO : Nat → Draw) (idx : Nat) (questions : List Question) :
    (presentQuestions drawO idx questions).length = questions.length := by
  induction questions generalizing idx with
  | nil => rfl
  | cons q rest ih => simp [presentQuestions, ih]

theorem getQuizQuestions_length_le (pool : List Question) (draw : Draw) (category : String)
    (count : Nat) : (getQuizQuestions pool draw category count).length ≤ count := by
  simp only [getQuizQuestions, List.length_take]
  omega

theorem setup_sizeInv (w : World) (pool : List Question) (drawQ : Draw) (drawO : Nat → Draw)
    (category : String) : SizeInv (setup w pool drawQ drawO category).1 := by
  unfold setup SizeInv
  simp only []
  split
  · simp [reset, State.initial]
  · simp only [presentQuestions_length]
    exact getQuizQuestions_length_le pool drawQ category QUESTIONS_PER_QUIZ

theorem step_sizeInv (w : World) (e : Event) (h : SizeInv w) : SizeInv (step w e) := by
  unfold SizeInv at h ⊢
  cases e with
  | reset => simp [step, reset, State.initial]
  | setup pool drawQ drawO category => exact setup_sizeInv w pool drawQ drawO category
  | start now => exact h
  | tick handle now =>
    simp only [step]
    split
    · unfold timerCallback
      simp only []
      split
      · simpa [handleTimeUp_state] using h
      · exact h
    · exact h
  | selectOption index => exact h
  | submitAnswer =>
    simp only [step]
    rw [(submitAnswer_questions w).1]
    exact h
  | advance now =>
    simp only [step]
    split
    · unfold advanceCallback
      rw [(nextQuestion_answers _ now).2.1]
      exact h
    · exact h
  | nextQuestion now =>
    simp only [step]
    rw [(nextQuestion_answers w now).2.1]
    exact h
  | handleTimeUp now => simpa [step, handleTimeUp_state] using h
  | endQuiz now => simpa [step, endQuiz_state] using h

theorem run_sizeInv (w : World) (events : List Event) (h : SizeInv w) (hl : LenEq w) :
    SizeInv (run w events) ∧ LenEq (run w events) := by
  induction events generalizing w with
  | nil => exact ⟨h, hl⟩
  | cons e es ih => exact ih (step w e) (step_sizeInv w e h) (step_lenEq w e hl)

set_option maxRecDepth 100000 in
theorem percentage_small (correct total : Nat) (ht : total ≤ 10) (hc : correct ≤ total)
    (h0 : total ≠ 0) :
    percentage correct total = some ((200 * correct + total) / (2 * total)) := by
  have key : ∀ t ∈ List.range 11, ∀ c ∈ List.range (t + 1), t ≠ 0 →
      percentage c t = some ((200 * c + t) / (2 * t)) := by
    decide
  exact key total (List.mem_range.mpr (by omega)) correct (List.mem_range.mpr (by omega)) h0

theorem halfUp_eq (correct total : Nat) (h : 0 < total) :
    ⌊(correct : ℚ) / total * 100 + 1 / 2⌋₊ = (200 * correct + total) / (2 * total) := by
  have ht : (total : ℚ) ≠ 0 := by exact_mod_cast h.ne.symm
  have hq : (correct : ℚ) / total * 100 + 1 / 2 =
      ((200 * correct + total : Nat) : ℚ) / ((2 * total : Nat) : ℚ) := by
    push_cast
    field_simp
    ring
  rw [hq, Nat.floor_div_eq_div]

/-- C4. In every session (a state reached from `setup` by any sequence of events),
`calculateResults()` returns a `Results`, and when `total > 0` its `percentage` is
`correct / total * 100` rounded half-up, that is `floor((200 * correct + total) /
(2 * total))`, although it is computed in binary64 arithmetic. In particular 7 of 10
gives 70 and 1 of 3 gives 33. (A session has at most `QUESTIONS_PER_QUIZ = 10` questions;
the binary64 value differs from the exact one for larger totals, e.g. 23 of 40 gives 57.) -/
theorem percentage_law (w0 : World) (pool : List Question) (drawQ : Draw)
    (drawO : Nat → Draw) (category : String) (events : List Event) :
    (∃ r : Results,
      calculateResults (run (setup w0 pool drawQ drawO category).1 events).state = some r ∧
      (0 < r.total →
        r.percentage = some ((200 * r.correct + r.total) / (2 * r.total)) ∧
        r.percentage = some ⌊(r.correct : ℚ) / r.total * 100 + 1 / 2⌋₊)) ∧
    percentage 7 10 = some 70 ∧ percentage 1 3 = some 33 := by
  obtain ⟨hsize, hlen⟩ := run_sizeInv _ events (setup_sizeInv w0 pool drawQ drawO category)
    (setup_lenEq w0 pool drawQ drawO category)
  refine ⟨⟨_, calculateResults_eq _ (le_of_eq hlen), fun hpos => ?_⟩, by decide, by decide⟩
  simp only [] at hpos ⊢
  rw [halfUp_eq _ _ hpos]
  exact ⟨percentage_small _ _ hsize (countCorrect_le _ _).2 (by omega),
    percentage_small _ _ hsize (countCorrect_le _ _).2 (by omega)⟩

/-- Witness for C4: the sample session with one right answer out of three. -/
theorem percentage_law_witness :
    ∃ r : Results,
      calculateResults (run (setup World.initial samplePool keepOrder (fun _ => drawZero)
        "css").1 [Event.selectOption 3, Event.submitAnswer]).state = some r ∧
      0 < r.total ∧ r.correct = 1 ∧ r.total = 3 ∧ r.percentage = some 33 := by
  obtain ⟨r, h1, h2⟩ := (percentage_law World.initial samplePool keepOrder
    (fun _ => drawZero) "css" [Event.selectOption 3, Event.submitAnswer]).1
  have h3 : calculateResults (run (setup World.initial samplePool keepOrder
      (fun _ => drawZero) "css").1 [Event.selectOption 3, Event.submitAnswer]).state =
      some { score := 10, correct := 1, wrong := 2, total := 3, percentage := some 33,
             timeTaken := 0, category := some "css" } := by
    decide
  rw [h3] at h1
  cases h1
  exact ⟨_, h3, by decide, rfl, rfl, (h2 (by decide)).1⟩

theorem percentage_not_exact : percentage 23 40 = some 57 ∧ (200 * 23 + 40) / (2 * 40) = 58 := by
  decide

/-! ## Sampling the questions of a session -/

theorem shuffleArray_perm {α : Type} (draw : Draw) (array : List α) :
    (shuffleArray draw array).Perm array :=
  shuffleLoop_perm draw (array.length - 1) array

theorem getQuizQuestions_length (pool : List Question) (draw : Draw) (category : String)
    (count : Nat) :
    (getQuizQuestions pool draw category count).length =
      min count (getQuestions pool category).length := by
  simp only [getQuizQuestions, List.length_take, (shuffleArray_perm draw _).length_eq]
  omega

theorem getQuestions_eq_nil (pool : List Question) (category : String) :
    getQuestions pool category = [] ↔ ∀ q ∈ pool, q.category ≠ category := by
  simp [getQuestions, List.filter_eq_nil_iff]

theorem setup_false_iff (w : World) (pool : List Question) (drawQ : Draw) (drawO : Nat → Draw)
    (category : String) :
    (setup w pool drawQ drawO category).2 = false ↔ getQuestions pool category = [] := by
  have hlen := getQuizQuestions_length pool drawQ category QUESTIONS_PER_QUIZ
  unfold setup
  simp only []
  split
  · next h =>
    simp only [true_iff]
    rw [h] at hlen
    have : (getQuestions pool category).length = 0 := by
      simp only [QUESTIONS_PER_QUIZ] at hlen
      omega
    exact List.length_eq_zero.mp this
  · next h =>
    simp only [Bool.true_eq_false, false_iff]
    intro hnil
    rw [hnil] at hlen
    simp at hlen
    exact h (by simpa using hlen)

theorem setup_state_of_false (w : World) (pool : List Question) (drawQ : Draw)
    (drawO : Nat → Draw) (category : String)
    (h : (setup w pool drawQ drawO category).2 = false) :
    (setup w pool drawQ drawO category).1 = reset w := by
  unfold setup at h ⊢
  simp only [] at h ⊢
  split
  · rfl
  · next hne => simp [hne] at h

/-- C11. For every question pool and category, `setup(category)` returns `false` if and
only if no question of the pool has that category; and when it returns `false` the state
is the reset state (no category, no questions, no answers, score 0, not active): no
session exists. -/
theorem setup_failure (w : World) (pool : List Question) (drawQ : Draw) (drawO : Nat → Draw)
    (category : String) :
    ((setup w pool drawQ drawO category).2 = false ↔ ∀ q ∈ pool, q.category ≠ category) ∧
    ((setup w pool drawQ drawO category).2 = false →
      (setup w pool drawQ drawO category).1 = reset w ∧
      (setup w pool drawQ drawO category).1.state = State.initial ∧
      (setup w pool drawQ drawO category).1.state.questions = [] ∧
      (setup w pool drawQ drawO category).1.state.answers = [] ∧
      (setup w pool drawQ drawO category).1.state.score = 0 ∧
      (setup w pool drawQ drawO category).1.state.isActive = false) := by
  refine ⟨?_, fun h => ?_⟩
  · rw [setup_false_iff, getQuestions_eq_nil]
  · rw [setup_state_of_false w pool drawQ drawO category h]
    exact ⟨rfl, rfl, rfl, rfl, rfl, rfl⟩

/-- Witness for C11: the sample pool has no `python` question. -/
theorem setup_failure_witness :
    (∀ q ∈ samplePool, q.category ≠ "python") ∧
    (setup sampleSession samplePool keepOrder (fun _ => drawZero) "python").2 = false ∧
    (setup sampleSession samplePool keepOrder (fun _ => drawZero) "python").1.state =
      State.initial :=
  ⟨by decide,
    (setup_failure sampleSession samplePool keepOrder (fun _ => drawZero) "python").1.mpr
      (by decide),
    ((setup_failure sampleSession samplePool keepOrder (fun _ => drawZero) "python").2
      ((setup_failure sampleSession samplePool keepOrder (fun _ => drawZero) "python").1.mpr
        (by decide))).2.1⟩

theorem setup_questions_length (w : World) (pool : List Question) (drawQ : Draw)
    (drawO : Nat → Draw) (category : String) :
    (setup w pool drawQ drawO category).1.state.questions.length =
      min QUESTIONS_PER_QUIZ (getQuestions pool category).length := by
  have hlen := getQuizQuestions_length pool drawQ category QUESTIONS_PER_QUIZ
  unfold setup
  simp only []
  split
  · next h =>
    rw [h] at hlen
    simp [reset, State.initial, ← hlen]
  · simp only [presentQuestions_length, hlen]

/-- C12. For every pool with `p` questions of the chosen category and every requested
count `n`, `getQuizQuestions(category, n)` returns exactly `min(n, p)` questions, so
`setup` (count `QUESTIONS_PER_QUIZ = 10`) yields `len(state.questions) == min(10, p)`;
a pool with 3 questions of the category gives 3. -/
theorem session_size (pool : List Question) (category : String) :
    (∀ (draw : Draw) (n : Nat),
      (getQuizQuestions pool draw category n).length =
        min n (pool.countP (fun q => decide (q.category = category)))) ∧
    (∀ (w : World) (drawQ : Draw) (drawO : Nat → Draw),
      (setup w pool drawQ drawO category).2 = true →
      (setup w pool drawQ drawO category).1.state.questions.length =
        min 10 (pool.countP (fun q => decide (q.category = category)))) ∧
    (∀ (w : World) (drawQ : Draw) (drawO : Nat → Draw),
      pool.countP (fun q => decide (q.category = category)) = 3 →
      (setup w pool drawQ drawO category).2 = true ∧
      (setup w pool drawQ drawO category).1.state.questions.length = 3) := by
  have hp : (getQuestions pool category).length =
      pool.countP (fun q => decide (q.category = category)) := by
    simp [getQuestions, List.countP_eq_length_filter]
  refine ⟨fun draw n => ?_, fun w drawQ drawO _ => ?_, fun w drawQ drawO h3 => ⟨?_, ?_⟩⟩
  · rw [getQuizQuestions_length, hp]
  · rw [setup_questions_length, hp]
    rfl
  · cases hb : (setup w pool drawQ drawO category).2 with
    | true => rfl
    | false =>
      have := (setup_false_iff w pool drawQ drawO category).mp hb
      rw [this] at hp
      simp at hp
      omega
  · rw [setup_questions_length, hp, h3]
    rfl

/-- Witness for C12: the sample pool holds 3 `css` questions. -/
theorem session_size_witness :
    samplePool.countP (fun q => decide (q.category = "css")) = 3 ∧
    (setup World.initial samplePool keepOrder (fun _ => drawZero) "css").2 = true ∧
    (setup World.initial samplePool keepOrder (fun _ => drawZero)
      "css").1.state.questions.length = 3 ∧
    (setup World.initial samplePool keepOrder (fun _ => drawZero)
      "css").1.state.questions.length =
        min 10 (samplePool.countP (fun q => decide (q.category = "css"))) :=
  ⟨by decide,
    ((session_size samplePool "css").2.2 World.initial keepOrder (fun _ => drawZero)
      (by decide)).1,
    ((session_size samplePool "css").2.2 World.initial keepOrder (fun _ => drawZero)
      (by decide)).2,
    (session_size samplePool "css").2.1 World.initial keepOrder (fun _ => drawZero)
      (by decide)⟩

/-- C13. After every successful `setup`, `totalTime` is `len(questions) * 60` seconds
(`TIME_PER_QUESTION_MINUTES = 1` minute each) and `timeRemaining` equals `totalTime`;
with 3 questions that is 180. -/
theorem time_budget (w : World) (pool : List Question) (drawQ : Draw) (drawO : Nat → Draw)
    (category : String) (h : (setup w pool drawQ drawO category).2 = true) :
    (setup w pool drawQ drawO category).1.state.totalTime =
      (setup w pool drawQ drawO category).1.state.questions.length * 60 ∧
    (setup w pool drawQ drawO category).1.state.timeRemaining =
      ((setup w pool drawQ drawO category).1.state.totalTime : Int) ∧
    ((setup w pool drawQ drawO category).1.state.questions.length = 3 →
      (setup w pool drawQ drawO category).1.state.totalTime = 180) := by
  unfold setup at h ⊢
  simp only [] at h ⊢
  split
  · next hz => simp [hz] at h
  · refine ⟨by simp [TIME_PER_QUESTION_MINUTES], rfl, fun h3 => ?_⟩
    simp only [] at h3 ⊢
    rw [h3]
    rfl

/-- Witness for C13: the sample session has 3 questions and 180 seconds. -/
theorem time_budget_witness :
    (setup World.initial samplePool keepOrder (fun _ => drawZero) "css").2 = true ∧
    (setup World.initial samplePool keepOrder (fun _ => drawZero)
      "css").1.state.questions.length = 3 ∧
    (setup World.initial samplePool keepOrder (fun _ => drawZero)
      "css").1.state.totalTime = 180 ∧
    (setup World.initial samplePool keepOrder (fun _ => drawZero)
      "css").1.state.timeRemaining = 180 :=
  ⟨by decide, by decide,
    (time_budget World.initial samplePool keepOrder (fun _ => drawZero) "css"
      (by decide)).2.2 (by decide),
    by decide⟩

/-- C14. For every pool, category, count and sequence of draws, every question returned
by `getQuizQuestions(category, count)` is a question of the pool with that category, and
the returned list is a prefix of a permutation of the category-filtered pool. Hence if
the pool holds no question twice (or no id twice), the session holds none twice. -/
theorem sampled_questions (pool : List Question) (draw : Draw) (category : String)
    (count : Nat) :
    (∀ q ∈ getQuizQuestions pool draw category count, q.category = category ∧ q ∈ pool) ∧
    (∃ shuffled : List Question, shuffled.Perm (getQuestions pool category) ∧
      getQuizQuestions pool draw category count <+: shuffled) ∧
    (pool.Nodup → (getQuizQuestions pool draw category count).Nodup) ∧
    ((pool.map (fun q => q.id)).Nodup →
      ((getQuizQuestions pool draw category count).map (fun q => q.id)).Nodup) := by
  have hperm := shuffleArray_perm draw (getQuestions pool category)
  have hsub : (getQuizQuestions pool draw category count).Sublist
      (shuffleArray draw (getQuestions pool category)) := List.take_sublist _ _
  have hfilter : (getQuestions pool category).Sublist pool := List.filter_sublist _
  refine ⟨fun q hq => ?_, ⟨_, hperm, List.take_prefix _ _⟩, fun hnd => ?_, fun hnd => ?_⟩
  · have hmem : q ∈ getQuestions pool category := hperm.mem_iff.mp (hsub.subset hq)
    simp only [getQuestions, List.mem_filter, decide_eq_true_eq] at hmem
    exact ⟨hmem.2, hmem.1⟩
  · exact (hperm.nodup_iff.mpr (hnd.sublist hfilter)).sublist hsub
  · have h1 : ((getQuestions pool category).map (fun q => q.id)).Nodup :=
      hnd.sublist (hfilter.map _)
    have h2 := ((hperm.map (fun q : Question => q.id)).nodup_iff).mpr h1
    exact h2.sublist (hsub.map _)

/-- Witness for C14: the sample pool holds no question twice. -/
theorem sampled_questions_witness :
    samplePool.Nodup ∧ (getQuizQuestions samplePool drawZero "css" 2).Nodup ∧
    getQuizQuestions samplePool drawZero "css" 2 =
      [sampleQuestion "c2" 1, sampleQuestion "c3" 2] :=
  ⟨by decide, (sampled_questions samplePool drawZero "css" 2).2.2.1 (by decide), by decide⟩

/-! ## The Fisher-Yates loop reaches every permutation exactly once -/

theorem swap_length {α : Type} (a : List α) (i j : Nat) : (swap a i j).length = a.length :=
  (swap_perm a i j).length_eq

theorem shuffleLoop_length {α : Type} (draw : Draw) (n : Nat) (a : List α) :
    (shuffleLoop draw n a).length = a.length :=
  (shuffleLoop_perm draw n a).length_eq

theorem swap_getElem?_of_ne {α : Type} (a : List α) (i j k : Nat) (hi : k ≠ i) (hj : k ≠ j) :
    (swap a i j)[k]? = a[k]? := by
  unfold swap
  split
  · rw [List.getElem?_set_ne (Ne.symm hj), List.getElem?_set_ne (Ne.symm hi)]
  · rfl

theorem swap_getElem?_left {α : Type} (a : List α) (i j : Nat) (hi : i < a.length)
    (hj : j < a.length) : (swap a i j)[i]? = a[j]? := by
  unfold swap
  rw [List.getElem?_eq_getElem hi, List.getElem?_eq_getElem hj]
  simp only []
  by_cases h : j = i
  · subst h
    rw [List.getElem?_set_self (by simpa using hj)]
  · rw [List.getElem?_set_ne h, List.getElem?_set_self hi]

theorem shuffleLoop_getElem?_above {α : Type} (draw : Draw) (i : Nat) (a : List α) (k : Nat)
    (hk : i < k) : (shuffleLoop draw i a)[k]? = a[k]? := by
  induction i generalizing a with
  | zero => rfl
  | succ n ih =>
    simp only [shuffleLoop]
    rw [ih _ (by omega)]
    have hj : (draw (n + 1)).val < n + 2 := (draw (n + 1)).isLt
    exact swap_getElem?_of_ne a (n + 1) _ k (by omega) (by omega)

theorem shuffleLoop_getElem?_top {α : Type} (draw : Draw) (n : Nat) (a : List α)
    (h : n + 1 < a.length) :
    (shuffleLoop draw (n + 1) a)[n + 1]? = a[(draw (n + 1)).val]? := by
  simp only [shuffleLoop]
  rw [shuffleLoop_getElem?_above draw n _ (n + 1) (by omega)]
  have hj : (draw (n + 1)).val < n + 2 := (draw (n + 1)).isLt
  exact swap_getElem?_left a (n + 1) _ h (by omega)

theorem shuffleLoop_congr {α : Type} (d1 d2 : Draw) (i : Nat) (a : List α)
    (h : ∀ k, 1 ≤ k → k ≤ i → d1 k = d2 k) : shuffleLoop d1 i a = shuffleLoop d2 i a := by
  induction i generalizing a with
  | zero => rfl
  | succ n ih =>
    simp only [shuffleLoop]
    rw [h (n + 1) (by omega) (le_refl _)]
    exact ih _ (fun k h1 h2 => h k h1 (by omega))

theorem shuffleLoop_injective {α : Type} (d1 d2 : Draw) (i : Nat) (a : List α)
    (hnd : a.Nodup) (hi : i < a.length) (h : shuffleLoop d1 i a = shuffleLoop d2 i a) :
    ∀ k, 1 ≤ k → k ≤ i → d1 k = d2 k := by
  induction i generalizing a with
  | zero => intro k h1 h2; omega
  | succ n ih =>
    have htop : a[(d1 (n + 1)).val]? = a[(d2 (n + 1)).val]? := by
      rw [← shuffleLoop_getElem?_top d1 n a hi, ← shuffleLoop_getElem?_top d2 n a hi, h]
    have h1lt : (d1 (n + 1)).val < a.length := by
      have := (d1 (n + 1)).isLt
      omega
    have h2lt : (d2 (n + 1)).val < a.length := by
      have := (d2 (n + 1)).isLt
      omega
    have hval : (d1 (n + 1)).val = (d2 (n + 1)).val := by
      rw [List.getElem?_eq_getElem h1lt, List.getElem?_eq_getElem h2lt,
        Option.some.injEq] at htop
      exact (List.Nodup.getElem_inj_iff hnd).mp htop
    have hfin : d1 (n + 1) = d2 (n + 1) := Fin.ext hval
    simp only [shuffleLoop] at h
    rw [hfin] at h
    have htail := ih (swap a (n + 1) (d2 (n + 1)).val)
      ((swap_perm a _ _).nodup_iff.mpr hnd) (by rw [swap_length]; omega) h
    intro k hk1 hk2
    by_cases hk : k = n + 1
    · subst hk
      exact hfin
    · exact htail k hk1 (by omega)

theorem shuffleLoop_surjective {α : Type} (i : Nat) (a b : List α) (hi : i < a.length)
    (hperm : b.Perm a) (habove : ∀ k, i < k → b[k]? = a[k]?) :
    ∃ d : Draw, shuffleLoop d i a = b := by
  induction i generalizing a with
  | zero =>
    refine ⟨keepOrder, ?_⟩
    simp only [shuffleLoop]
    cases a with
    | nil => simp at hi
    | cons a0 at1 =>
      cases b with
      | nil => exact absurd hperm.length_eq (by simp)
      | cons b0 bt =>
        have htail : bt = at1 := by
          apply List.ext_getElem?
          intro k
          have := habove (k + 1) (by omega)
          simpa using this
        subst htail
        have h1 : ([b0] ++ bt).Perm ([a0] ++ bt) := hperm
        have h2 := (List.perm_append_right_iff bt).mp h1
        have h3 : b0 = a0 := by simpa using h2
        rw [h3]
  | succ n ih =>
    have hlen : b.length = a.length := hperm.length_eq
    have hdrop : b.drop (n + 2) = a.drop (n + 2) := by
      apply List.ext_getElem?
      intro k
      rw [List.getElem?_drop, List.getElem?_drop]
      exact habove _ (by omega)
    have htake : (b.take (n + 2)).Perm (a.take (n + 2)) := by
      have h1 : (b.take (n + 2) ++ b.drop (n + 2)).Perm (a.take (n + 2) ++ a.drop (n + 2)) := by
        rw [List.take_append_drop, List.take_append_drop]
        exact hperm
      rw [hdrop] at h1
      exact (List.perm_append_right_iff _).mp h1
    have hb : n + 1 < b.length := by omega
    have hmem : b[n + 1] ∈ a.take (n + 2) := by
      apply htake.mem_iff.mp
      rw [List.mem_take_iff_getElem]
      exact ⟨n + 1, by omega, rfl⟩
    rw [List.mem_take_iff_getElem] at hmem
    obtain ⟨j, hj, hjx⟩ := hmem
    have hj2 : j < n + 2 := by omega
    have hja : j < a.length := by omega
    have hnext : ∃ d : Draw, shuffleLoop d n (swap a (n + 1) j) = b := by
      apply ih
      · rw [swap_length]
        omega
      · exact hperm.trans (swap_perm a _ _).symm
      · intro k hk
        by_cases hk1 : k = n + 1
        · subst hk1
          rw [swap_getElem?_left a (n + 1) j hi hja, List.getElem?_eq_getElem hb,
            List.getElem?_eq_getElem hja, hjx]
        · rw [swap_getElem?_of_ne a (n + 1) j k hk1 (by omega)]
          exact habove k (by omega)
    obtain ⟨d, hd⟩ := hnext
    refine ⟨Function.update d (n + 1) ⟨j, hj2⟩, ?_⟩
    simp only [shuffleLoop, Function.update_same]
    rw [← hd]
    apply shuffleLoop_congr
    intro k _ hk2
    exact Function.update_noteq (by omega) _ _

/-- C15. For every list of pairwise distinct elements, the Fisher-Yates loop of
`shuffleArray` (the same loop `shuffleLoop` that `shuffleOptions` runs) maps the
sequences of draws `j_i ∈ [0, i]`, `i = n - 1, ..., 1`, one-to-one onto the permutations
of the list: every result is a permutation, every permutation is the result of some
draws, and two draw sequences with the same result agree at every position the loop
reads. So uniformly distributed draws give a uniformly distributed permutation. -/
theorem shuffle_bijective {α : Type} (array : List α) (hnd : array.Nodup) :
    (∀ draw : Draw, shuffleArray draw array = shuffleLoop draw (array.length - 1) array ∧
      (shuffleArray draw array).Perm array) ∧
    (∀ target : List α, target.Perm array → ∃ draw : Draw, shuffleArray draw array = target) ∧
    (∀ d1 d2 : Draw, shuffleArray d1 array = shuffleArray d2 array →
      ∀ i, 1 ≤ i → i < array.length → d1 i = d2 i) := by
  refine ⟨fun draw => ⟨rfl, shuffleArray_perm draw array⟩, fun target hperm => ?_,
    fun d1 d2 h i h1 h2 => ?_⟩
  · cases array with
    | nil =>
      have : target = [] := List.Perm.eq_nil hperm
      exact ⟨keepOrder, by rw [this]; rfl⟩
    | cons x rest =>
      exact shuffleLoop_surjective rest.length (x :: rest) target (by simp) hperm
        (fun k hk => by
          have hlen := hperm.length_eq
          rw [List.getElem?_eq_none (by simp at hlen ⊢; omega),
            List.getElem?_eq_none (by simp; omega)])
  · exact shuffleLoop_injective d1 d2 (array.length - 1) array hnd (by omega) h i h1
      (by omega)

/-- Witness for C15: the three distinct numbers 1, 2, 3 and the target order 3, 1, 2. -/
theorem shuffle_bijective_witness :
    ([1, 2, 3] : List Nat).Nodup ∧ ([3, 1, 2] : List Nat).Perm [1, 2, 3] ∧
    (∃ draw : Draw, shuffleArray draw ([1, 2, 3] : List Nat) = [3, 1, 2]) ∧
    shuffleArray drawZero ([1, 2, 3] : List Nat) = [2, 3, 1] ∧
    shuffleArray keepOrder ([1, 2, 3] : List Nat) = [1, 2, 3] :=
  ⟨by decide, by decide,
    (shuffle_bijective ([1, 2, 3] : List Nat) (by decide)).2.1 [3, 1, 2] (by decide),
    by decide, by decide⟩

/-! ## Submitting and advancing -/

theorem submitAnswer_effect (w : World) (s : Int) (q : PresentedQuestion)
    (hsel : w.state.selectedOption = some s) (hq : getCurrentQuestion w.state = some q) :
    submitAnswer w =
      ({ w with
          state :=
            { w.state with
              answers := w.state.answers.set w.state.currentIndex (some s)
              score := if s = q.shuffledOptions.correctIndex then
                w.state.score + POINTS_CORRECT else w.state.score }
          pendingAdvances := w.pendingAdvances + 1 },
        SubmitOutcome.returned true) := by
  unfold submitAnswer
  rw [hsel]
  simp only [hq]
  by_cases hc : s = q.shuffledOptions.correctIndex <;> simp [hc]

theorem step_idxInv (w : World) (e : Event) (h : IdxInv w) (he : sessionEvent e = true) :
    IdxInv (step w e) := by
  unfold IdxInv at h ⊢
  cases e with
  | reset => simp [sessionEvent] at he
  | setup pool drawQ drawO category => simp [sessionEvent] at he
  | start now => exact h
  | tick handle now =>
    simp only [step]
    split
    · unfold timerCallback
      simp only []
      split
      · simpa [handleTimeUp_state] using h
      · exact h
    · exact h
  | selectOption index => exact h
  | submitAnswer =>
    simp only [step]
    unfold submitAnswer
    split
    · exact h
    · split
      · exact h
      · exact h
  | advance now =>
    simp only [step]
    split
    · unfold advanceCallback nextQuestion
      simp only []
      split
      · next hlt =>
        simp only []
        omega
      · simpa [endQuiz_state] using h
    · exact h
  | nextQuestion now =>
    simp only [step]
    unfold nextQuestion
    split
    · next hlt =>
      simp only []
      omega
    · simpa [endQuiz_state] using h
  | handleTimeUp now => simpa [step, handleTimeUp_state] using h
  | endQuiz now => simpa [step, endQuiz_state] using h

theorem run_idxInv (w : World) (events : List Event) (h : IdxInv w) (hl : LenEq w)
    (he : events.all sessionEvent = true) :
    IdxInv (run w events) ∧ LenEq (run w events) := by
  induction events generalizing w with
  | nil => exact ⟨h, hl⟩
  | cons e es ih =>
    simp only [List.all_cons, Bool.and_eq_true] at he
    exact ih (step w e) (step_idxInv w e h he.1) (step_lenEq w e hl) he.2

theorem setup_idxInv (w : World) (pool : List Question) (drawQ : Draw) (drawO : Nat → Draw)
    (category : String) (h : (setup w pool drawQ drawO category).2 = true) :
    IdxInv (setup w pool drawQ drawO category).1 := by
  unfold setup IdxInv at *
  simp only [] at h ⊢
  split
  · next hz => simp [hz] at h
  · next hz =>
    simp only [presentQuestions_length, reset, State.initial]
    omega

/-- C16. In every state of a session (reached from a successful `setup` by any sequence
of session events) with `selectedOption = s` set, `submitAnswer()` returns `true`, sets
`answers[currentIndex] = s`, adds exactly `POINTS_CORRECT` (10) to `score` if `s` is the
relocated correct index of the current question and leaves `score` as it is otherwise,
and leaves every other entry of `answers`, `currentIndex`, `questions`, the timing
fields, `isActive` and the selection unchanged; one deferred advance is scheduled. -/
theorem submit_effect (w0 : World) (pool : List Question) (drawQ : Draw)
    (drawO : Nat → Draw) (category : String) (events : List Event) (w : World) (s : Int)
    (hsetup : (setup w0 pool drawQ drawO category).2 = true)
    (hev : events.all sessionEvent = true)
    (hw : w = run (setup w0 pool drawQ drawO category).1 events)
    (hsel : w.state.selectedOption = some s) :
    ∃ q : PresentedQuestion, getCurrentQuestion w.state = some q ∧
      (submitAnswer w).2 = SubmitOutcome.returned true ∧
      (submitAnswer w).1.state.answers[w.state.currentIndex]? = some (some s) ∧
      (∀ k : Nat, k ≠ w.state.currentIndex →
        (submitAnswer w).1.state.answers[k]? = w.state.answers[k]?) ∧
      (submitAnswer w).1.state.answers.length = w.state.answers.length ∧
      (s = q.shuffledOptions.correctIndex →
        (submitAnswer w).1.state.score = w.state.score + 10) ∧
      (s ≠ q.shuffledOptions.correctIndex →
        (submitAnswer w).1.state.score = w.state.score) ∧
      (submitAnswer w).1.state.currentIndex = w.state.currentIndex ∧
      (submitAnswer w).1.state.questions = w.state.questions ∧
      (submitAnswer w).1.state.totalTime = w.state.totalTime ∧
      (submitAnswer w).1.state.timeRemaining = w.state.timeRemaining ∧
      (submitAnswer w).1.state.startTime = w.state.startTime ∧
      (submitAnswer w).1.state.endTime = w.state.endTime ∧
      (submitAnswer w).1.state.timerInterval = w.state.timerInterval ∧
      (submitAnswer w).1.state.isActive = w.state.isActive ∧
      (submitAnswer w).1.state.selectedOption = some s ∧
      (submitAnswer w).1.intervals = w.intervals ∧
      (submitAnswer w).1.pendingAdvances = w.pendingAdvances + 1 := by
  obtain ⟨hidx, hlen⟩ := run_idxInv _ events
    (setup_idxInv w0 pool drawQ drawO category hsetup)
    (setup_lenEq w0 pool drawQ drawO category) hev
  rw [← hw] at hidx hlen
  unfold IdxInv at hidx
  unfold LenEq at hlen
  have hq : getCurrentQuestion w.state = some w.state.questions[w.state.currentIndex] := by
    unfold getCurrentQuestion
    exact List.getElem?_eq_getElem hidx
  refine ⟨_, hq, ?_⟩
  rw [submitAnswer_effect w s _ hsel hq]
  refine ⟨rfl, ?_, ?_, ?_, ?_, ?_, rfl, rfl, rfl, rfl, rfl, rfl, rfl, rfl, hsel, rfl, rfl⟩
  · simp only []
    rw [List.getElem?_set_self (by omega)]
  · intro k hk
    simp only []
    rw [List.getElem?_set_ne (Ne.symm hk)]
  · simp
  · intro hc
    simp [hc, POINTS_CORRECT]
  · intro hc
    simp [hc]

/-- Witness for C16: the sample session after `start()` and `selectOption(3)`, the
relocated correct index of its first question. -/
theorem submit_effect_witness :
    (setup World.initial samplePool keepOrder (fun _ => drawZero) "css").2 = true ∧
    (run (setup World.initial samplePool keepOrder (fun _ => drawZero) "css").1
      [Event.start 0, Event.selectOption 3]).state.selectedOption = some 3 ∧
    (submitAnswer (run (setup World.initial samplePool keepOrder (fun _ => drawZero) "css").1
      [Event.start 0, Event.selectOption 3])).1.state.score = 10 ∧
    ∃ q : PresentedQuestion,
      getCurrentQuestion (run (setup World.initial samplePool keepOrder (fun _ => drawZero)
        "css").1 [Event.start 0, Event.selectOption 3]).state = some q ∧
      (submitAnswer (run (setup World.initial samplePool keepOrder (fun _ => drawZero)
        "css").1 [Event.start 0, Event.selectOption 3])).2 = SubmitOutcome.returned true :=
  ⟨by decide, by decide, by decide,
    (submit_effect World.initial samplePool keepOrder (fun _ => drawZero) "css"
      [Event.start 0, Event.selectOption 3] _ 3 (by decide) (by decide) rfl (by decide)).imp
      (fun _ h => ⟨h.1, h.2.1⟩)⟩

/-- C17. When the continuation scheduled by `submitAnswer` runs, it unsets
`selectedOption` and leaves `answers` and `score` alone. If `currentIndex` is below
`len(questions) - 1` it raises `currentIndex` by exactly 1 and changes neither
`isActive` nor the timer, so an active session stays active; otherwise `currentIndex`
stays and the session is ended: `isActive` is false and the stored timer is stopped. -/
theorem deferred_advance (w : World) (now : Nat) :
    (advanceCallback w now).state.selectedOption = none ∧
    (advanceCallback w now).state.answers = w.state.answers ∧
    (advanceCallback w now).state.score = w.state.score ∧
    (advanceCallback w now).state.questions = w.state.questions ∧
    (w.state.currentIndex + 1 < w.state.questions.length →
      (advanceCallback w now).state.currentIndex = w.state.currentIndex + 1 ∧
      (advanceCallback w now).state.isActive = w.state.isActive ∧
      (advanceCallback w now).state.timerInterval = w.state.timerInterval ∧
      (advanceCallback w now).intervals = w.intervals ∧
      (advanceCallback w now).rendered = w.rendered) ∧
    (¬ w.state.currentIndex + 1 < w.state.questions.length →
      (advanceCallback w now).state.currentIndex = w.state.currentIndex ∧
      (advanceCallback w now).state.isActive = false ∧
      (advanceCallback w now).state.timerInterval = none ∧
      (advanceCallback w now).state.endTime = some now ∧
      ∀ h : Nat, w.state.timerInterval = some h → h ∉ (advanceCallback w now).intervals) := by
  unfold advanceCallback nextQuestion
  simp only []
  split
  · next hlt =>
    refine ⟨rfl, rfl, rfl, rfl, fun _ => ⟨rfl, rfl, rfl, rfl, rfl⟩, fun hn => ?_⟩
    exact absurd (by omega) hn
  · next hge =>
    refine ⟨by simp [endQuiz_state], by simp [endQuiz_state], by simp [endQuiz_state],
      by simp [endQuiz_state], fun hlt => ?_, fun _ => ?_⟩
    · exact absurd (by omega) hge
    · refine ⟨by simp [endQuiz_state], by simp [endQuiz_state], by simp [endQuiz_state],
        by simp [endQuiz_state], fun h hh => ?_⟩
      unfold endQuiz stopTimer
      simp only [hh]
      split
      · simp
      · split <;> simp

/-- Witness for C17: in the sample session the advance after the first submission moves
to the second question and the session stays active; in the one-question session it
ends the session. -/
theorem deferred_advance_witness :
    (run sampleSession [Event.start 0, Event.selectOption 3,
      Event.submitAnswer]).state.currentIndex + 1 <
      (run sampleSession [Event.start 0, Event.selectOption 3,
        Event.submitAnswer]).state.questions.length ∧
    (advanceCallback (run sampleSession [Event.start 0, Event.selectOption 3,
      Event.submitAnswer]) 1).state.currentIndex = 0 + 1 ∧
    (advanceCallback (run sampleSession [Event.start 0, Event.selectOption 3,
      Event.submitAnswer]) 1).state.isActive = true ∧
    (advanceCallback (run (setup World.initial samplePool keepOrder (fun _ => drawZero)
      "html").1 [Event.start 0, Event.selectOption 2, Event.submitAnswer]) 1).state.isActive =
      false :=
  ⟨by decide,
    ((deferred_advance (run sampleSession [Event.start 0, Event.selectOption 3,
      Event.submitAnswer]) 1).2.2.2.2.1 (by decide)).1,
    by decide,
    ((deferred_advance (run (setup World.initial samplePool keepOrder (fun _ => drawZero)
      "html").1 [Event.start 0, Event.selectOption 2, Event.submitAnswer]) 1).2.2.2.2.2
        (by decide)).2.1⟩

/-- C18. In every state reached from a successful `setup` by any sequence of session
events (`start`, `selectOption`, `submitAnswer`, timer ticks, deferred advances, also
direct `nextQuestion`, `handleTimeUp` and `endQuiz` calls, and also two submissions on
the same question before the advance fires), `0 ≤ currentIndex < len(questions)`, so
`getCurrentQuestion()` is defined. -/
theorem current_index_valid (w0 : World) (pool : List Question) (drawQ : Draw)
    (drawO : Nat → Draw) (category : String) (events : List Event)
    (hsetup : (setup w0 pool drawQ drawO category).2 = true)
    (hev : events.all sessionEvent = true) :
    (run (setup w0 pool drawQ drawO category).1 events).state.currentIndex <
      (run (setup w0 pool drawQ drawO category).1 events).state.questions.length ∧
    ∃ q : PresentedQuestion,
      getCurrentQuestion (run (setup w0 pool drawQ drawO category).1 events).state =
        some q := by
  obtain ⟨hidx, -⟩ := run_idxInv _ events
    (setup_idxInv w0 pool drawQ drawO category hsetup)
    (setup_lenEq w0 pool drawQ drawO category) hev
  unfold IdxInv at hidx
  exact ⟨hidx, _, List.getElem?_eq_getElem hidx⟩

/-- Witness for C18: the sample session with two submissions on the first question, then
three deferred advances (one of them left over), so that the advances run out of
questions. -/
theorem current_index_valid_witness :
    (setup World.initial samplePool keepOrder (fun _ => drawZero) "css").2 = true ∧
    (run (setup World.initial samplePool keepOrder (fun _ => drawZero) "css").1
      [Event.start 0, Event.selectOption 3, Event.submitAnswer, Event.submitAnswer,
        Event.advance 1, Event.advance 1, Event.selectOption 0, Event.submitAnswer,
        Event.advance 2]).state.currentIndex = 2 ∧
    (run (setup World.initial samplePool keepOrder (fun _ => drawZero) "css").1
      [Event.start 0, Event.selectOption 3, Event.submitAnswer, Event.submitAnswer,
        Event.advance 1, Event.advance 1, Event.selectOption 0, Event.submitAnswer,
        Event.advance 2]).state.currentIndex <
      (run (setup World.initial samplePool keepOrder (fun _ => drawZero) "css").1
        [Event.start 0, Event.selectOption 3, Event.submitAnswer, Event.submitAnswer,
          Event.advance 1, Event.advance 1, Event.selectOption 0, Event.submitAnswer,
          Event.advance 2]).state.questions.length :=
  ⟨by decide, by decide,
    (current_index_valid World.initial samplePool keepOrder (fun _ => drawZero) "css"
      [Event.start 0, Event.selectOption 3, Event.submitAnswer, Event.submitAnswer,
        Event.advance 1, Event.advance 1, Event.selectOption 0, Event.submitAnswer,
        Event.advance 2] (by decide) (by decide)).1⟩

/-! ## The timer -/

theorem endQuiz_intervals (w : World) (now : Nat) :
    (endQuiz w now).1.intervals = (stopTimer w).intervals := by
  unfold endQuiz
  simp only []
  split
  · rfl
  · split <;> rfl

theorem stopTimer_not_mem (w : World) (h : Nat) (hh : w.state.timerInterval = some h) :
    h ∉ (stopTimer w).intervals := by
  unfold stopTimer
  simp [hh]

theorem handleTimeUp_rendered (w : World) (now : Nat) (hl : LenEq w) :
    ∃ r : Results, (handleTimeUp w now).1.rendered = w.rendered ++ [r] := by
  unfold handleTimeUp
  rw [endQuiz_rendered, calculateResults_eq _ (by simpa [markSkipped_length] using le_of_eq hl)]
  exact ⟨_, rfl⟩

set_option maxRecDepth 100000 in
/-- C19, counterexample. In a one-question session `start()` is called twice, so two
timers tick and only the second handle is stored. After 30 seconds the 60th tick (of
timer 2) brings the time to 0 and ends the session: `timerInterval` is null, `isActive`
is false, one `Results` is rendered and timer 2 is cancelled. Timer 1 is still running:
its next tick takes `timeRemaining` to `-1` and runs the time-up transition again
(a second `Results`), and after that tick timer 1 is still not cancelled, so the tick
after it takes `timeRemaining` to `-2`. -/
theorem timer_tick_counterexample :
    (setup World.initial samplePool keepOrder (fun _ => drawZero) "html").2 = true ∧
    orphanTimerSession.state.timeRemaining = 0 ∧
    orphanTimerSession.state.timerInterval = none ∧
    orphanTimerSession.state.isActive = false ∧
    orphanTimerSession.rendered.length = 1 ∧
    orphanTimerSession.intervals = [1] ∧
    (step orphanTimerSession (Event.tick 1 31)).state.timeRemaining = -1 ∧
    (step orphanTimerSession (Event.tick 1 31)).rendered.length = 2 ∧
    (step orphanTimerSession (Event.tick 1 31)).intervals = [1] ∧
    (step (step orphanTimerSession (Event.tick 1 31))
      (Event.tick 1 32)).state.timeRemaining = -2 := by
  decide

/-- C19, amended. Each tick of a live timer decreases `timeRemaining` by exactly 1. If
the new value is `≤ 0`, the time-up transition runs once in that tick (one `Results` is
rendered), `timerInterval` is null and `isActive` is false, and if the ticking timer is
the one stored in `timerInterval` it is cancelled, so that it never ticks again. If the
new value is `> 0`, `answers`, `score`, `currentIndex` and `isActive` are unchanged and
the timer keeps running. -/
theorem timer_tick (w : World) (h now : Nat) (hlive : h ∈ w.intervals) :
    (step w (Event.tick h now)).state.timeRemaining = w.state.timeRemaining - 1 ∧
    (w.state.timeRemaining - 1 ≤ 0 →
      step w (Event.tick h now) =
        (handleTimeUp
          { w with state := { w.state with timeRemaining := w.state.timeRemaining - 1 } }
          now).1 ∧
      (step w (Event.tick h now)).state.timerInterval = none ∧
      (step w (Event.tick h now)).state.isActive = false ∧
      (LenEq w → ∃ r : Results, (step w (Event.tick h now)).rendered = w.rendered ++ [r]) ∧
      (w.state.timerInterval = some h →
        h ∉ (step w (Event.tick h now)).intervals ∧
        ∀ later : Nat, step (step w (Event.tick h now)) (Event.tick h later) =
          step w (Event.tick h now))) ∧
    (0 < w.state.timeRemaining - 1 →
      (step w (Event.tick h now)).state.answers = w.state.answers ∧
      (step w (Event.tick h now)).state.score = w.state.score ∧
      (step w (Event.tick h now)).state.currentIndex = w.state.currentIndex ∧
      (step w (Event.tick h now)).state.isActive = w.state.isActive ∧
      (step w (Event.tick h now)).state.timerInterval = w.state.timerInterval ∧
      (step w (Event.tick h now)).rendered = w.rendered ∧
      (step w (Event.tick h now)).intervals = w.intervals ∧
      h ∈ (step w (Event.tick h now)).intervals) := by
  have hstep : step w (Event.tick h now) = timerCallback w now := by
    simp only [step, hlive, if_true]
  rw [hstep]
  unfold timerCallback
  simp only []
  split
  · next hle =>
    refine ⟨by simp [handleTimeUp_state], fun _ => ⟨rfl, by simp [handleTimeUp_state],
      by simp [handleTimeUp_state], fun hl => ?_, fun hst => ?_⟩, fun hpos => ?_⟩
    · exact handleTimeUp_rendered _ now hl
    · have hnot : h ∉ (handleTimeUp
          { w with state := { w.state with timeRemaining := w.state.timeRemaining - 1 } }
          now).1.intervals := by
        unfold handleTimeUp
        rw [endQuiz_intervals]
        exact stopTimer_not_mem _ h hst
      refine ⟨hnot, fun later => ?_⟩
      simp only [step, hnot, if_false]
    · exact absurd hpos (by simpa using hle)
  · next hgt =>
    refine ⟨rfl, fun hle => ?_, fun _ => ⟨rfl, rfl, rfl, rfl, rfl, rfl, rfl, hlive⟩⟩
    exact absurd hle hgt

set_option maxRecDepth 100000 in
/-- Witness for C19 (amended): in the started sample session (180 seconds, timer handle 1)
a tick leaves 179 seconds and the timer running; in the one-question session the 60th
tick of the stored timer ends the session and cancels the timer. -/
theorem timer_tick_witness :
    (1 : Nat) ∈ (run sampleSession [Event.start 0]).intervals ∧
    (step (run sampleSession [Event.start 0]) (Event.tick 1 1)).state.timeRemaining =
      180 - 1 ∧
    (1 : Nat) ∈ (step (run sampleSession [Event.start 0]) (Event.tick 1 1)).intervals ∧
    (1 : Nat) ∉ (step (run (setup World.initial samplePool keepOrder (fun _ => drawZero)
      "html").1 (Event.start 0 :: List.replicate 59 (Event.tick 1 1)))
        (Event.tick 1 60)).intervals := by
  have h1 : (1 : Nat) ∈ (run sampleSession [Event.start 0]).intervals := by decide
  have h2 := timer_tick (run sampleSession [Event.start 0]) 1 1 h1
  have h3 := timer_tick (run (setup World.initial samplePool keepOrder (fun _ => drawZero)
      "html").1 (Event.start 0 :: List.replicate 59 (Event.tick 1 1))) 1 60 (by decide)
  exact ⟨h1, h2.1, (h2.2.2 (by decide)).2.2.2.2.2.2.2,
    ((h3.2.1 (by decide)).2.2.2.2 (by decide)).1⟩

theorem calculateResults_time (s : State) (r : Results) (h : calculateResults s = some r) :
    r.timeTaken = (s.totalTime : Int) - s.timeRemaining ∧ r.total = s.questions.length := by
  unfold calculateResults at h
  split at h
  · simp at h
  · simp only [Option.some.injEq] at h
    subst h
    exact ⟨rfl, rfl⟩

theorem stopTimer_intervals (w : World)
    (hst : ∀ h ∈ w.intervals, w.state.timerInterval = some h) :
    ∀ h : Nat, h ∉ (stopTimer w).intervals := by
  intro h hmem
  unfold stopTimer at hmem
  split at hmem
  · next h0 hh0 =>
    simp only [List.mem_filter, decide_eq_true_eq] at hmem
    have := hst h hmem.1
    rw [hh0] at this
    exact hmem.2 (Option.some.inj this).symm
  · next hnone =>
    have := hst h hmem
    rw [hnone] at this
    exact Option.noConfusion this

theorem endQuiz_timeInv (w : World) (now : Nat) (h0 : 0 ≤ w.state.timeRemaining)
    (h1 : w.state.timeRemaining ≤ (w.state.totalTime : Int))
    (h2 : w.state.totalTime = w.state.questions.length * 60)
    (h3 : ∀ h ∈ w.intervals, w.state.timerInterval = some h)
    (h4 : ∀ r ∈ w.rendered, 0 ≤ r.timeTaken ∧ r.timeTaken ≤ ((r.total * 60 : Nat) : Int)) :
    TimeInv (endQuiz w now).1 := by
  refine ⟨by simpa [endQuiz_state] using h0, by simpa [endQuiz_state] using h1,
    by simpa [endQuiz_state] using h2, fun h hmem => ?_, fun r hr => ?_⟩
  · rw [endQuiz_intervals] at hmem
    exact absurd hmem (stopTimer_intervals w h3 h)
  · rw [endQuiz_rendered] at hr
    split at hr
    · next r0 hr0 =>
      rcases List.mem_append.mp hr with hold | hnew
      · exact h4 r hold
      · simp only [List.mem_singleton] at hnew
        subst hnew
        obtain ⟨ht, htot⟩ := calculateResults_time w.state r hr0
        rw [ht, htot, ← h2]
        omega
    · exact h4 r hr

theorem step_timeInv (w : World) (e : Event) (h : TimeInv w)
    (he : orderlyStart w e = true) : TimeInv (step w e) := by
  obtain ⟨h0, h1, h2, h3, h4⟩ := h
  have h3a : ∀ h ∈ w.intervals, w.state.timerInterval = some h := fun h hm => (h3 h hm).1
  cases e with
  | reset =>
    refine ⟨by simp [step, reset, State.initial], by simp [step, reset, State.initial],
      by simp [step, reset, State.initial], fun h hmem => ?_, ?_⟩
    · exact absurd hmem (stopTimer_intervals w h3a h)
    · simpa [step, reset, stopTimer_rendered] using h4
  | setup pool drawQ drawO category =>
    simp only [step, setup]
    split
    · refine ⟨by simp [reset, State.initial], by simp [reset, State.initial],
        by simp [reset, State.initial], fun h hmem => ?_, ?_⟩
      · exact absurd hmem (stopTimer_intervals w h3a h)
      · simpa [reset, stopTimer_rendered] using h4
    · refine ⟨Int.natCast_nonneg _, le_refl _, by simp [TIME_PER_QUESTION_MINUTES],
        fun h hmem => ?_, ?_⟩
      · exact absurd hmem (stopTimer_intervals w h3a h)
      · simpa [reset, stopTimer_rendered] using h4
  | start now =>
    simp only [orderlyStart, decide_eq_true_eq] at he
    refine ⟨h0, h1, h2, fun h hmem => ?_, h4⟩
    simp only [step, start, startTimer, he.1, List.mem_singleton] at hmem
    subst hmem
    exact ⟨rfl, he.2⟩
  | tick handle now =>
    simp only [step]
    split
    · next hlive =>
      have hpos := (h3 handle hlive).2
      unfold timerCallback
      simp only []
      split
      · unfold handleTimeUp
        exact endQuiz_timeInv _ now (by simp only []; omega) (by simp only []; omega) h2 h3a h4
      · next hgt =>
        simp only [not_le] at hgt
        exact ⟨by simp only []; omega, by simp only []; omega, h2,
          fun h hmem => ⟨(h3 h hmem).1, hgt⟩, h4⟩
    · exact ⟨h0, h1, h2, h3, h4⟩
  | selectOption index => exact ⟨h0, h1, h2, h3, h4⟩
  | submitAnswer =>
    simp only [step]
    unfold submitAnswer
    split
    · exact ⟨h0, h1, h2, h3, h4⟩
    · split
      · exact ⟨h0, h1, h2, h3, h4⟩
      · exact ⟨h0, h1, h2, h3, h4⟩
  | advance now =>
    simp only [step]
    split
    · unfold advanceCallback nextQuestion
      simp only []
      split
      · exact ⟨h0, h1, h2, h3, h4⟩
      · exact endQuiz_timeInv _ now h0 h1 h2 h3a h4
    · exact ⟨h0, h1, h2, h3, h4⟩
  | nextQuestion now =>
    simp only [step]
    unfold nextQuestion
    split
    · exact ⟨h0, h1, h2, h3, h4⟩
    · exact endQuiz_timeInv _ now h0 h1 h2 h3a h4
  | handleTimeUp now =>
    simp only [step]
    unfold handleTimeUp
    exact endQuiz_timeInv _ now h0 h1 h2 h3a h4
  | endQuiz now => exact endQuiz_timeInv _ now h0 h1 h2 h3a h4

theorem run_timeInv (w : World) (events : List Event) (h : TimeInv w)
    (he : orderlyRun w events = true) : TimeInv (run w events) := by
  induction events generalizing w with
  | nil => exact h
  | cons e es ih =>
    simp only [orderlyRun, Bool.and_eq_true] at he
    exact ih (step w e) (step_timeInv w e h he.1) he.2

/-- C20, counterexample. On a fresh page `reset()`, `start()` and one tick of the timer
leave `timeRemaining == -1` with `totalTime == 0`; the `Results` rendered by that tick
report `timeTaken == 1`. -/
theorem remaining_time_counterexample :
    (run World.initial [Event.reset, Event.start 0, Event.tick 1 1]).state.timeRemaining =
      -1 ∧
    (run World.initial [Event.reset, Event.start 0, Event.tick 1 1]).state.totalTime = 0 ∧
    (run World.initial [Event.reset, Event.start 0, Event.tick 1 1]).rendered =
      [{ score := 0, correct := 0, wrong := 0, total := 0, percentage := none,
         timeTaken := 1, category := none }] := by
  decide

/-- C20, amended. In every state reached from the fresh page through the engine's
operations (`reset`, `setup`, `start`, timer ticks, `selectOption`, `submitAnswer`,
deferred advances, and the other methods), provided `start()` is only called while no
timer is running and `timeRemaining > 0` (as the application does, right after a
successful `setup`), `0 ≤ timeRemaining ≤ totalTime`; hence `timeTaken = totalTime -
timeRemaining` lies in `[0, totalTime]`, also in the `Results` that were rendered. -/
theorem remaining_time_bounds (events : List Event)
    (h : orderlyRun World.initial events = true) :
    0 ≤ (run World.initial events).state.timeRemaining ∧
    (run World.initial events).state.timeRemaining ≤
      ((run World.initial events).state.totalTime : Int) ∧
    (∀ r : Results, calculateResults (run World.initial events).state = some r →
      0 ≤ r.timeTaken ∧
      r.timeTaken ≤ ((run World.initial events).state.totalTime : Int)) ∧
    ∀ r ∈ (run World.initial events).rendered,
      0 ≤ r.timeTaken ∧ r.timeTaken ≤ ((r.total * 60 : Nat) : Int) := by
  have hinit : TimeInv World.initial := by
    refine ⟨by decide, by decide, by decide, fun h hmem => ?_, fun r hr => ?_⟩
    · simp [World.initial] at hmem
    · simp [World.initial] at hr
  obtain ⟨h0, h1, -, -, h4⟩ := run_timeInv World.initial events hinit h
  refine ⟨h0, h1, fun r hr => ?_, h4⟩
  obtain ⟨ht, -⟩ := calculateResults_time _ r hr
  rw [ht]
  omega

set_option maxRecDepth 100000 in
/-- Witness for C20 (amended): on a fresh page the one-question `html` session is set up,
started and run through its 60 ticks; the `Results` report 60 seconds. -/
theorem remaining_time_bounds_witness :
    orderlyRun World.initial
      (Event.setup samplePool keepOrder (fun _ => drawZero) "html" :: Event.start 0 ::
        List.replicate 60 (Event.tick 1 1)) = true ∧
    (run World.initial
      (Event.setup samplePool keepOrder (fun _ => drawZero) "html" :: Event.start 0 ::
        List.replicate 60 (Event.tick 1 1))).state.timeRemaining = 0 ∧
    (run World.initial
      (Event.setup samplePool keepOrder (fun _ => drawZero) "html" :: Event.start 0 ::
        List.replicate 60 (Event.tick 1 1))).rendered.map (fun r => r.timeTaken) = [60] ∧
    0 ≤ (run World.initial
      (Event.setup samplePool keepOrder (fun _ => drawZero) "html" :: Event.start 0 ::
        List.replicate 60 (Event.tick 1 1))).state.timeRemaining :=
  ⟨by decide, by decide, by decide,
    (remaining_time_bounds
      (Event.setup samplePool keepOrder (fun _ => drawZero) "html" :: Event.start 0 ::
        List.replicate 60 (Event.tick 1 1)) (by decide)).1⟩

/-! ## Fresh sessions -/

/-- C25. After every successful `setup(category)` the state has `isActive == false`,
`currentIndex == 0`, `score == 0`, `selectedOption` unset, `category` equal to the
argument, and every one of the `len(questions)` entries of `answers` unset. -/
theorem fresh_state (w : World) (pool : List Question) (drawQ : Draw) (drawO : Nat → Draw)
    (category : String) (h : (setup w pool drawQ drawO category).2 = true) :
    (setup w pool drawQ drawO category).1.state.isActive = false ∧
    (setup w pool drawQ drawO category).1.state.currentIndex = 0 ∧
    (setup w pool drawQ drawO category).1.state.score = 0 ∧
    (setup w pool drawQ drawO category).1.state.selectedOption = none ∧
    (setup w pool drawQ drawO category).1.state.category = some category ∧
    (∀ a ∈ (setup w pool drawQ drawO category).1.state.answers, a = none) ∧
    (setup w pool drawQ drawO category).1.state.answers =
      List.replicate (setup w pool drawQ drawO category).1.state.questions.length none ∧
    (setup w pool drawQ drawO category).1.state.questions ≠ [] := by
  unfold setup at h ⊢
  simp only [] at h ⊢
  split
  · next hz => simp [hz] at h
  · next hz =>
    refine ⟨rfl, rfl, rfl, rfl, rfl, fun a ha => ?_, rfl, fun hnil => ?_⟩
    · exact (List.mem_replicate.mp ha).2
    · simp only [] at hnil
      apply hz
      rw [← presentQuestions_length drawO 0, hnil]
      rfl

/-- Witness for C25: the sample session, set up on a world in which an earlier session
was already running. -/
theorem fresh_state_witness :
    (setup (run sampleSession [Event.start 0, Event.selectOption 3, Event.submitAnswer])
      samplePool keepOrder (fun _ => drawZero) "css").2 = true ∧
    (setup (run sampleSession [Event.start 0, Event.selectOption 3, Event.submitAnswer])
      samplePool keepOrder (fun _ => drawZero) "css").1.state.answers = [none, none, none] ∧
    (setup (run sampleSession [Event.start 0, Event.selectOption 3, Event.submitAnswer])
      samplePool keepOrder (fun _ => drawZero) "css").1.state.score = 0 :=
  ⟨by decide, by decide,
    (fresh_state (run sampleSession [Event.start 0, Event.selectOption 3, Event.submitAnswer])
      samplePool keepOrder (fun _ => drawZero) "css" (by decide)).2.2.1⟩

/-! ## Counting in `calculateResults` -/

theorem countCorrect_nil_left (answers : List (Option Int)) : countCorrect [] answers = 0 := by
  cases answers <;> rfl

theorem tally_some (questions : List PresentedQuestion) (answers : List (Option Int))
    (idx : Nat) (acc res : Nat × Nat) (h : tally questions answers idx acc = some res) :
    res.1 = acc.1 + countCorrect (questions.drop idx) answers ∧
    res.2 = acc.2 + (answers.length - countCorrect (questions.drop idx) answers) := by
  induction answers generalizing idx acc with
  | nil =>
    obtain ⟨c, wr⟩ := acc
    simp only [tally, Option.some.injEq] at h
    subst h
    cases questions.drop idx <;> simp [countCorrect]
  | cons a rest ih =>
    obtain ⟨c, wr⟩ := acc
    have hle := (countCorrect_le (questions.drop (idx + 1)) rest).1
    simp only [tally] at h
    by_cases hlt : idx < questions.length
    · have hdrop : questions.drop idx = questions[idx] :: questions.drop (idx + 1) :=
        List.drop_eq_getElem_cons hlt
      rw [hdrop]
      simp only [countCorrect, List.length_cons]
      by_cases h1 : a = some (-1) ∨ a = none
      · have hr : isRight questions[idx] a = false := by
          simp only [isRight, decide_eq_false_iff_not]
          rcases h1 with h1 | h1 <;> simp [h1]
        simp only [h1, if_true] at h
        obtain ⟨e1, e2⟩ := ih (idx + 1) _ h
        simp only [] at e1 e2
        simp only [hr, Bool.false_eq_true, if_false]
        omega
      · simp only [h1, if_false, List.getElem?_eq_getElem hlt] at h
        by_cases h2 : a = some questions[idx].shuffledOptions.correctIndex
        · have hr : isRight questions[idx] a = true := by
            simp only [isRight, decide_eq_true_eq]
            exact ⟨fun h => h1 (Or.inl h), fun h => h1 (Or.inr h), h2⟩
          simp only [h2, if_true] at h
          obtain ⟨e1, e2⟩ := ih (idx + 1) _ h
          simp only [] at e1 e2
          simp only [hr, if_true]
          omega
        · have hr : isRight questions[idx] a = false := by
            simp only [isRight, decide_eq_false_iff_not]
            exact fun h => h2 h.2.2
          simp only [h2, if_false] at h
          obtain ⟨e1, e2⟩ := ih (idx + 1) _ h
          simp only [] at e1 e2
          simp only [hr, Bool.false_eq_true, if_false]
          omega
    · have hnil : questions.drop idx = [] := List.drop_eq_nil_of_le (by omega)
      have hnil1 : questions.drop (idx + 1) = [] := List.drop_eq_nil_of_le (by omega)
      rw [hnil, countCorrect_nil_left]
      by_cases h1 : a = some (-1) ∨ a = none
      · simp only [h1, if_true] at h
        obtain ⟨e1, e2⟩ := ih (idx + 1) _ h
        rw [hnil1, countCorrect_nil_left] at e1 e2
        simp only [] at e1 e2
        simp only [List.length_cons]
        omega
      · simp only [h1, if_false, List.getElem?_eq_none (by omega : questions.length ≤ idx)]
          at h
        exact Option.noConfusion h

theorem rightAt_nil_left (answers : List (Option Int)) (i : Nat) :
    rightAt [] answers i = false := by
  unfold rightAt
  split
  · next h1 h2 => simp at h2
  · rfl

theorem rightAt_cons_zero (q : PresentedQuestion) (questions : List PresentedQuestion)
    (a : Option Int) (answers : List (Option Int)) :
    rightAt (q :: questions) (a :: answers) 0 = isRight q a := by
  unfold rightAt isRight
  simp only [List.getElem?_cons_zero]
  cases a with
  | none => simp
  | some v =>
    simp only []
    by_cases h : v = -1 <;> simp [h]

theorem rightAt_cons_succ (q : PresentedQuestion) (questions : List PresentedQuestion)
    (a : Option Int) (answers : List (Option Int)) (i : Nat) :
    rightAt (q :: questions) (a :: answers) (i + 1) = rightAt questions answers i := by
  unfold rightAt
  simp only [List.getElem?_cons_succ]

theorem countCorrect_eq_countP (questions : List PresentedQuestion)
    (answers : List (Option Int)) :
    countCorrect questions answers =
      (List.range answers.length).countP (rightAt questions answers) := by
  induction answers generalizing questions with
  | nil => cases questions <;> simp [countCorrect]
  | cons a rest ih =>
    cases questions with
    | nil =>
      rw [countCorrect_nil_left]
      symm
      rw [List.countP_eq_zero]
      intro i _
      simp [rightAt_nil_left]
    | cons q qs =>
      simp only [countCorrect, List.length_cons, List.range_succ_eq_map, List.countP_cons,
        List.countP_map, rightAt_cons_zero, ih qs]
      have hfun : (rightAt (q :: qs) (a :: rest) ∘ Nat.succ) = rightAt qs rest := by
        funext i
        exact rightAt_cons_succ q qs a rest i
      rw [hfun]
      omega

/-- C23. Whenever `calculateResults()` returns, its `correct` is the number of indices
`i` at which `answers[i]` is neither skipped (`-1`) nor unset (`null`) and equals
`questions[i].shuffledOptions.correctIndex`, and its `wrong` is the number of all other
indices of `answers`, among them every skipped and every unset one. It does return (no
exception) in every session state, where the answers are not more than the questions. -/
theorem result_counting (s : State) :
    (∀ r : Results, calculateResults s = some r →
      r.correct = (List.range s.answers.length).countP (rightAt s.questions s.answers) ∧
      r.wrong = (List.range s.answers.length).countP
        (fun i => !rightAt s.questions s.answers i) ∧
      r.correct + r.wrong = s.answers.length) ∧
    (∀ i : Nat, s.answers[i]? = some none ∨ s.answers[i]? = some (some (-1)) →
      rightAt s.questions s.answers i = false) ∧
    (∀ (i : Nat) (v : Int) (q : PresentedQuestion), s.answers[i]? = some (some v) →
      s.questions[i]? = some q →
      (rightAt s.questions s.answers i = true ↔
        v ≠ -1 ∧ v = q.shuffledOptions.correctIndex)) ∧
    (s.answers.length ≤ s.questions.length → ∃ r : Results, calculateResults s = some r) := by
  refine ⟨fun r hr => ?_, fun i hi => ?_, fun i v q ha hq => ?_, fun hlen => ?_⟩
  · unfold calculateResults at hr
    split at hr
    · exact Option.noConfusion hr
    · next c wr ht =>
      simp only [Option.some.injEq] at hr
      subst hr
      obtain ⟨e1, e2⟩ := tally_some _ _ _ _ _ ht
      simp only [List.drop_zero, Nat.zero_add] at e1 e2
      have hle := (countCorrect_le s.questions s.answers).1
      have hsplit := List.length_eq_countP_add_countP
        (rightAt s.questions s.answers) (List.range s.answers.length)
      simp only [List.length_range] at hsplit
      rw [← countCorrect_eq_countP] at hsplit
      simp only []
      refine ⟨by rw [e1, countCorrect_eq_countP], ?_, by omega⟩
      have hnot : (List.range s.answers.length).countP
          (fun i => !rightAt s.questions s.answers i) =
          (List.range s.answers.length).countP
            (fun a => decide ¬rightAt s.questions s.answers a = true) := by
        congr 1
        funext i
        cases rightAt s.questions s.answers i <;> rfl
      rw [hnot]
      omega
  · unfold rightAt
    rcases hi with hi | hi
    · rw [hi]
    · rw [hi]
      split
      · next h1 h2 =>
        simp only [Option.some.injEq] at h1
        subst h1
        simp
      · rfl
  · unfold rightAt
    rw [ha, hq]
    simp
  · exact ⟨_, calculateResults_eq s hlen⟩

/-- Witness for C23: the sample session with a right first answer, an unset second and a
skipped third answer. -/
theorem result_counting_witness :
    (run sampleSession [Event.start 0, Event.selectOption 3, Event.submitAnswer,
      Event.submitAnswer, Event.advance 1, Event.advance 1,
      Event.handleTimeUp 2]).state.answers = [some 3, none, some (-1)] ∧
    ∃ r : Results,
      calculateResults (run sampleSession [Event.start 0, Event.selectOption 3,
        Event.submitAnswer, Event.submitAnswer, Event.advance 1, Event.advance 1,
        Event.handleTimeUp 2]).state = some r ∧ r.correct = 1 ∧ r.wrong = 2 := by
  obtain ⟨r, hr⟩ := (result_counting (run sampleSession [Event.start 0,
    Event.selectOption 3, Event.submitAnswer, Event.submitAnswer, Event.advance 1,
    Event.advance 1, Event.handleTimeUp 2]).state).2.2.2 (by decide)
  have hval : calculateResults (run sampleSession [Event.start 0, Event.selectOption 3,
      Event.submitAnswer, Event.submitAnswer, Event.advance 1, Event.advance 1,
      Event.handleTimeUp 2]).state =
      some { score := 20, correct := 1, wrong := 2, total := 3, percentage := some 33,
             timeTaken := 0, category := some "css" } := by
    decide
  rw [hval] at hr
  cases hr
  exact ⟨by decide, _, hval, rfl, rfl⟩

/-! ## Bounds on the percentage -/

theorem log2Loop_spec (fuel n : Nat) (hn : 0 < n) (hf : n ≤ fuel) :
    2 ^ log2Loop fuel n ≤ n ∧ n < 2 ^ (log2Loop fuel n + 1) := by
  induction fuel generalizing n with
  | zero => omega
  | succ f ih =>
    simp only [log2Loop]
    split
    · next h2 =>
      have : n = 1 := by omega
      subst this
      simp
    · next h2 =>
      have hhalf := ih (n / 2) (by omega) (by omega)
      obtain ⟨h1, h3⟩ := hhalf
      constructor
      · rw [pow_succ]
        omega
      · rw [pow_succ]
        omega

theorem log2_spec (n : Nat) (hn : 0 < n) : 2 ^ log2 n ≤ n ∧ n < 2 ^ (log2 n + 1) :=
  log2Loop_spec n n hn (le_refl n)

theorem floorLog2_le (n d : Nat) (hn : 0 < n) (hd : 0 < d) (h : n ≤ 100 * d) :
    floorLog2 n d ≤ 7 := by
  obtain ⟨hn1, -⟩ := log2_spec n hn
  obtain ⟨-, hd2⟩ := log2_spec d hd
  have hlog : log2 n < log2 d + 8 := by
    by_contra hcon
    have hge : log2 d + 8 ≤ log2 n := by omega
    have hpow : 2 ^ (log2 d + 8) ≤ 2 ^ log2 n := Nat.pow_le_pow_right (by omega) hge
    have h128 : 2 ^ (log2 d + 8) = 2 ^ (log2 d + 1) * 128 := by
      rw [show log2 d + 8 = log2 d + 1 + 7 by omega, pow_add]
      norm_num
    omega
  unfold floorLog2
  simp only []
  split <;> omega

theorem roundToDouble_le (n d bound : Nat) (hd : 0 < d) (h : n ≤ bound * d)
    (h100 : n ≤ 100 * d) :
    (roundToDouble n d).1 ≤ bound * (roundToDouble n d).2 := by
  unfold roundToDouble
  split
  · simp
  · next hn0 =>
    have hn : 0 < n := by omega
    have he : floorLog2 n d - 52 ≤ 0 := by
      have := floorLog2_le n d hn hd h100
      omega
    have hz : (floorLog2 n d - 52).toNat = 0 := by omega
    simp only [hz, pow_zero, Nat.mul_one]
    generalize (-(floorLog2 n d - 52)).toNat = k
    have hscaled : n * 2 ^ k ≤ (bound * 2 ^ k) * d := by
      calc n * 2 ^ k ≤ (bound * d) * 2 ^ k := Nat.mul_le_mul_right _ h
        _ = (bound * 2 ^ k) * d := by ring
    generalize n * 2 ^ k = big at hscaled
    generalize bound * 2 ^ k = top at hscaled
    have hq : big / d ≤ top :=
      Nat.div_le_of_le_mul (by rw [Nat.mul_comm]; exact hscaled)
    have hdiv := Nat.div_add_mod big d
    have hstep : 0 < big % d → big / d + 1 ≤ top := by
      intro hr
      by_contra hcon
      have hge : top ≤ big / d := by omega
      have : top * d ≤ (big / d) * d := Nat.mul_le_mul_right _ hge
      have hcomm : d * (big / d) = (big / d) * d := Nat.mul_comm _ _
      omega
    split
    · exact hq
    · split
      · exact hstep (by omega)
      · split
        · exact hq
        · exact hstep (by omega)

theorem roundToDouble_den_pos (n d : Nat) : 0 < (roundToDouble n d).2 := by
  unfold roundToDouble
  split
  · simp
  · exact pow_pos (by norm_num) _

theorem percentage_le (correct total : Nat) (h0 : 0 < total) (hc : correct ≤ total) :
    ∃ p : Nat, percentage correct total = some p ∧ p ≤ 100 := by
  unfold percentage
  rw [if_neg (by omega)]
  refine ⟨_, rfl, ?_⟩
  have hx := roundToDouble_le correct total 1 h0 (by omega) (by omega)
  have hxd := roundToDouble_den_pos correct total
  generalize roundToDouble correct total = x at hx hxd
  have hy := roundToDouble_le (x.1 * 100) x.2 100 hxd (by omega) (by omega)
  have hyd := roundToDouble_den_pos (x.1 * 100) x.2
  generalize roundToDouble (x.1 * 100) x.2 = y at hy hyd
  have hlt : (2 * y.1 + y.2) / (2 * y.2) < 101 := by
    rw [Nat.div_lt_iff_lt_mul (by omega)]
    omega
  omega

/-- C27. For every state with `len(answers) == len(questions)`, `calculateResults()`
returns `Results` with `correct + wrong == total == len(questions)` (both counts are
natural numbers), and whenever `total > 0` its percentage is a number between 0 and
100, also in binary64 arithmetic. -/
theorem counts_partition (s : State) (h : s.answers.length = s.questions.length) :
    ∃ r : Results, calculateResults s = some r ∧
      r.correct + r.wrong = r.total ∧ r.total = s.questions.length ∧
      (0 < r.total → ∃ p : Nat, r.percentage = some p ∧ 0 ≤ p ∧ p ≤ 100) := by
  have hle := countCorrect_le s.questions s.answers
  refine ⟨_, calculateResults_eq s (le_of_eq h), ?_, rfl, fun hpos => ?_⟩
  · simp only []
    omega
  · simp only [] at hpos ⊢
    obtain ⟨p, hp, hp100⟩ := percentage_le _ _ hpos hle.2
    exact ⟨p, hp, Nat.zero_le p, hp100⟩

/-- Witness for C27: the sample session after one right answer. -/
theorem counts_partition_witness :
    (run sampleSession [Event.selectOption 3, Event.submitAnswer]).state.answers.length =
      (run sampleSession [Event.selectOption 3, Event.submitAnswer]).state.questions.length ∧
    ∃ r : Results,
      calculateResults (run sampleSession [Event.selectOption 3,
        Event.submitAnswer]).state = some r ∧
      r.correct + r.wrong = r.total ∧ r.total = 3 :=
  ⟨by decide,
    (counts_partition (run sampleSession [Event.selectOption 3, Event.submitAnswer]).state
      (by decide)).imp (fun _ h => ⟨h.1, h.2.1, h.2.2.1.trans (by decide)⟩)⟩

/-! ## The answered prefix -/

theorem endQuiz_pendingAdvances (w : World) (now : Nat) :
    (endQuiz w now).1.pendingAdvances = w.pendingAdvances := by
  unfold endQuiz
  simp only []
  split
  · exact stopTimer_pendingAdvances w
  · split <;> exact stopTimer_pendingAdvances w

theorem setup_pendingAdvances (w : World) (pool : List Question) (drawQ : Draw)
    (drawO : Nat → Draw) (category : String) :
    (setup w pool drawQ drawO category).1.pendingAdvances = w.pendingAdvances := by
  unfold setup
  simp only []
  split <;> simp [reset, stopTimer_pendingAdvances]

theorem markSkipped_ne_unset (answers : List (Option Int)) (i fuel k : Nat)
    (h : answers[k]? ≠ some none) : (markSkipped answers i fuel)[k]? ≠ some none := by
  rw [markSkipped_getElem?]
  split
  · simp
  · exact h

theorem answersOnce_sessionEvent (w : World) (e : Event) (h : answersOnce w e = true) :
    sessionEvent e = true := by
  cases e <;> simp_all [answersOnce, sessionEvent]

theorem step_prefixInv (w : World) (e : Event) (h : PrefixInv w)
    (he : answersOnce w e = true) : PrefixInv (step w e) := by
  obtain ⟨h1, h2, h3⟩ := h
  cases e with
  | reset => simp [answersOnce] at he
  | setup pool drawQ drawO category => simp [answersOnce] at he
  | nextQuestion now => simp [answersOnce] at he
  | handleTimeUp now => simp [answersOnce] at he
  | endQuiz now => simp [answersOnce] at he
  | start now => exact ⟨h1, h2, h3⟩
  | selectOption index => exact ⟨h1, h2, h3⟩
  | tick handle now =>
    simp only [step]
    split
    · unfold timerCallback
      simp only []
      split
      · refine ⟨fun i hi => ?_, ?_, fun hp => ?_⟩
        · simp only [handleTimeUp_state] at hi ⊢
          exact markSkipped_ne_unset _ _ _ _ (h1 i hi)
        · unfold handleTimeUp
          rw [endQuiz_pendingAdvances]
          exact h2
        · unfold handleTimeUp at hp
          rw [endQuiz_pendingAdvances] at hp
          simp only [handleTimeUp_state]
          exact markSkipped_ne_unset _ _ _ _ (h3 hp)
      · exact ⟨h1, h2, h3⟩
    · exact ⟨h1, h2, h3⟩
  | submitAnswer =>
    simp only [answersOnce, decide_eq_true_eq] at he
    have hzero : w.pendingAdvances = 0 := by
      by_contra hne
      exact h3 (by omega) he
    obtain ⟨hlt, -⟩ := List.getElem?_eq_some_iff.mp he
    simp only [step]
    unfold submitAnswer
    split
    · exact ⟨h1, h2, h3⟩
    · split
      · exact ⟨h1, h2, h3⟩
      · refine ⟨fun i hi => ?_, ?_, fun _ => ?_⟩
        · simp only [] at hi ⊢
          rw [List.getElem?_set_ne (by omega)]
          exact h1 i hi
        · simp only []
          omega
        · simp only []
          rw [List.getElem?_set_self hlt]
          simp
  | advance now =>
    simp only [step]
    split
    · next hpos =>
      have hcur := h3 hpos
      unfold advanceCallback nextQuestion
      simp only []
      split
      · refine ⟨fun i hi => ?_, ?_, fun hp => ?_⟩
        · simp only [] at hi ⊢
          by_cases hic : i = w.state.currentIndex
          · rw [hic]
            exact hcur
          · exact h1 i (by omega)
        · simp only []
          omega
        · simp only [] at hp
          omega
      · refine ⟨fun i hi => ?_, ?_, fun hp => ?_⟩
        · simp only [endQuiz_state] at hi ⊢
          exact h1 i hi
        · rw [endQuiz_pendingAdvances]
          simp only []
          omega
        · rw [endQuiz_pendingAdvances] at hp
          simp only [] at hp
          omega
    · exact ⟨h1, h2, h3⟩

theorem run_prefixInv (w : World) (events : List Event) (h : PrefixInv w) (hi : IdxInv w)
    (hl : LenEq w) (he : answersOnceRun w events = true) :
    PrefixInv (run w events) ∧ IdxInv (run w events) ∧ LenEq (run w events) := by
  induction events generalizing w with
  | nil => exact ⟨h, hi, hl⟩
  | cons e es ih =>
    simp only [answersOnceRun, Bool.and_eq_true] at he
    exact ih (step w e) (step_prefixInv w e h he.1)
      (step_idxInv w e hi (answersOnce_sessionEvent w e he.1)) (step_lenEq w e hl) he.2

/-- C26, counterexample. In the sample session the first question is submitted twice
(first option 0, then option 1) before its deferred advance fires. The two advances
move to the third question, and the answer of the second question, below
`currentIndex`, is unset. Only `start`, `selectOption`, `submitAnswer` and deferred
advances occur. -/
theorem answered_below_counterexample :
    (setup World.initial samplePool keepOrder (fun _ => drawZero) "css").2 = true ∧
    (run (setup World.initial samplePool keepOrder (fun _ => drawZero) "css").1
      [Event.start 0, Event.selectOption 0, Event.submitAnswer, Event.selectOption 1,
        Event.submitAnswer, Event.advance 1, Event.advance 1]).state.currentIndex = 2 ∧
    (run (setup World.initial samplePool keepOrder (fun _ => drawZero) "css").1
      [Event.start 0, Event.selectOption 0, Event.submitAnswer, Event.selectOption 1,
        Event.submitAnswer, Event.advance 1, Event.advance 1]).state.answers[1]? =
      some none := by
  decide

/-- C26, amended. Take a successful `setup` made while no deferred advance is scheduled,
followed by any sequence of `start`, `selectOption`, timer ticks, deferred advances, and
`submitAnswer` calls made only while `answers[currentIndex]` is still unset. In every
state so reached, every index `i < currentIndex` has a recorded answer, and after
`handleTimeUp()` no answer is unset. -/
theorem answered_below (w0 : World) (pool : List Question) (drawQ : Draw)
    (drawO : Nat → Draw) (category : String) (events : List Event)
    (hsetup : (setup w0 pool drawQ drawO category).2 = true)
    (hpending : w0.pendingAdvances = 0)
    (hev : answersOnceRun (setup w0 pool drawQ drawO category).1 events = true) :
    (∀ i : Nat, i < (run (setup w0 pool drawQ drawO category).1 events).state.currentIndex →
      ∃ v : Int, (run (setup w0 pool drawQ drawO category).1 events).state.answers[i]? =
        some (some v)) ∧
    ∀ now : Nat, none ∉
      (handleTimeUp (run (setup w0 pool drawQ drawO category).1 events) now).1.state.answers := by
  have hfresh := fresh_state w0 pool drawQ drawO category hsetup
  have hinit : PrefixInv (setup w0 pool drawQ drawO category).1 := by
    refine ⟨fun i hi => ?_, ?_, fun hp => ?_⟩
    · rw [hfresh.2.1] at hi
      omega
    · rw [setup_pendingAdvances]
      omega
    · rw [setup_pendingAdvances] at hp
      omega
  obtain ⟨⟨h1, -, -⟩, hidx, hlen⟩ := run_prefixInv _ events hinit
    (setup_idxInv w0 pool drawQ drawO category hsetup)
    (setup_lenEq w0 pool drawQ drawO category) hev
  unfold IdxInv at hidx
  unfold LenEq at hlen
  refine ⟨fun i hi => ?_, fun now hmem => ?_⟩
  · have hlt : i < (run (setup w0 pool drawQ drawO category).1 events).state.answers.length := by
      omega
    have hne := h1 i hi
    rw [List.getElem?_eq_getElem hlt] at hne ⊢
    cases hv : (run (setup w0 pool drawQ drawO category).1 events).state.answers[i] with
    | none => exact absurd (by rw [hv]) hne
    | some v => exact ⟨v, rfl⟩
  · obtain ⟨k, hk⟩ := List.mem_iff_getElem?.mp hmem
    simp only [handleTimeUp_state, markSkipped_getElem?] at hk
    split at hk
    · simp at hk
    · next hc =>
      by_cases hkc : k < (run (setup w0 pool drawQ drawO category).1 events).state.currentIndex
      · exact h1 k hkc hk
      · obtain ⟨hklt, -⟩ := List.getElem?_eq_some_iff.mp hk
        exact hc ⟨by omega, by omega, hk⟩

/-- Witness for C26 (amended): the sample session on a fresh page; the first question is
answered, the second answered after its advance, then the next advance fires. -/
theorem answered_below_witness :
    (setup World.initial samplePool keepOrder (fun _ => drawZero) "css").2 = true ∧
    World.initial.pendingAdvances = 0 ∧
    answersOnceRun (setup World.initial samplePool keepOrder (fun _ => drawZero) "css").1
      [Event.start 0, Event.selectOption 3, Event.submitAnswer, Event.advance 1,
        Event.selectOption 0, Event.submitAnswer, Event.advance 2] = true ∧
    (run (setup World.initial samplePool keepOrder (fun _ => drawZero) "css").1
      [Event.start 0, Event.selectOption 3, Event.submitAnswer, Event.advance 1,
        Event.selectOption 0, Event.submitAnswer, Event.advance 2]).state.currentIndex = 2 ∧
    ∀ i : Nat, i < (run (setup World.initial samplePool keepOrder (fun _ => drawZero) "css").1
      [Event.start 0, Event.selectOption 3, Event.submitAnswer, Event.advance 1,
        Event.selectOption 0, Event.submitAnswer, Event.advance 2]).state.currentIndex →
      ∃ v : Int, (run (setup World.initial samplePool keepOrder (fun _ => drawZero) "css").1
        [Event.start 0, Event.selectOption 3, Event.submitAnswer, Event.advance 1,
          Event.selectOption 0, Event.submitAnswer, Event.advance 2]).state.answers[i]? =
        some (some v) :=
  ⟨by decide, by decide, by decide, by decide,
    (answered_below World.initial samplePool keepOrder (fun _ => drawZero) "css"
      [Event.start 0, Event.selectOption 3, Event.submitAnswer, Event.advance 1,
        Event.selectOption 0, Event.submitAnswer, Event.advance 2]
      (by decide) (by decide) (by decide)).1⟩

/-! ## Deferred advances that outlive their session -/

theorem reset_stops_stored_timer (w : World) (h now : Nat)
    (hst : w.state.timerInterval = some h) :
    h ∉ (reset w).intervals ∧ step (reset w) (Event.tick h now) = reset w := by
  have hnot : h ∉ (reset w).intervals := by
    simp only [reset]
    exact stopTimer_not_mem w h hst
  exact ⟨hnot, by simp only [step, hnot, if_false]⟩

theorem reset_keeps_pendingAdvances (w : World) :
    (reset w).pendingAdvances = w.pendingAdvances := by
  simp only [reset]
  exact stopTimer_pendingAdvances w

/-- C21, failing input. A session has a deferred advance scheduled when `reset()` and the
`setup` of a new session run. `reset` stops the old timer but leaves the advance
scheduled. When it fires in the new session, in which option 2 is selected on the first
question, it unsets `selectedOption` and moves `currentIndex` from 0 to 1, leaving the
first answer unset. -/
theorem stale_advance_hits_new_session :
    sessionWithPendingAdvance.pendingAdvances = 1 ∧
    (reset sessionWithPendingAdvance).pendingAdvances = 1 ∧
    (reset sessionWithPendingAdvance).intervals = [] ∧
    supersedingSession.state.currentIndex = 0 ∧
    supersedingSession.state.selectedOption = some 2 ∧
    supersedingSession.state.answers = [none, none, none] ∧
    (step supersedingSession (Event.advance 2)).state.currentIndex = 1 ∧
    (step supersedingSession (Event.advance 2)).state.selectedOption = none ∧
    (step supersedingSession (Event.advance 2)).state.answers = [none, none, none] := by
  decide

set_option maxRecDepth 100000 in
/-- C22, failing input. In a one-question session the answer is submitted in the last
second. The 60th tick runs the time-up transition: `endQuiz` renders `Results` and adds
a leaderboard entry. The deferred advance of the submission is still scheduled; when it
fires, `nextQuestion` calls `endQuiz` a second time, which renders the `Results` again,
adds a second leaderboard entry and overwrites `endTime`. -/
theorem endQuiz_runs_twice :
    (setup loggedInPage samplePool keepOrder (fun _ => drawZero) "html").2 = true ∧
    sessionEndedDuringFeedback.state.isActive = false ∧
    sessionEndedDuringFeedback.state.endTime = some 60 ∧
    sessionEndedDuringFeedback.pendingAdvances = 1 ∧
    sessionEndedDuringFeedback.rendered.length = 1 ∧
    sessionEndedDuringFeedback.leaderboard.length = 1 ∧
    (step sessionEndedDuringFeedback (Event.advance 61)).rendered.length = 2 ∧
    (step sessionEndedDuringFeedback (Event.advance 61)).leaderboard.length = 2 ∧
    (step sessionEndedDuringFeedback (Event.advance 61)).state.endTime = some 61 ∧
    (step (run sampleSession [Event.start 0, Event.selectOption 3, Event.submitAnswer,
      Event.handleTimeUp 1]) (Event.advance 2)).state.currentIndex = 1 := by
  decide

/-! ## The review -/

theorem reviewFrom_length (answers : List (Option Int)) (idx : Nat)
    (questions : List PresentedQuestion) :
    (reviewFrom answers idx questions).length = questions.length := by
  induction questions generalizing idx with
  | nil => rfl
  | cons q rest ih => simp [reviewFrom, ih]

theorem reviewFrom_getElem? (answers : List (Option Int)) (idx : Nat)
    (questions : List PresentedQuestion) (i : Nat) :
    (reviewFrom answers idx questions)[i]? =
      (questions[i]?).map (fun q => reviewItem q answers[idx + i]?) := by
  induction questions generalizing idx i with
  | nil => simp [reviewFrom]
  | cons q rest ih =>
    cases i with
    | zero => simp [reviewFrom]
    | succ j =>
      simp only [reviewFrom, List.getElem?_cons_succ, ih]
      rw [show idx + 1 + j = idx + (j + 1) by omega]

theorem getReviewData_spec (s : State) :
    (getReviewData s).length = s.questions.length ∧
    ∀ (i : Nat) (q : PresentedQuestion), s.questions[i]? = some q →
      ∃ item : ReviewItem, (getReviewData s)[i]? = some item ∧
        item.question = q.q.question ∧ item.options = q.shuffledOptions.options ∧
        (s.answers[i]? = some (some (-1)) →
          item.wasSkipped = true ∧ item.userAnswer = some "Not answered") ∧
        (s.answers[i]? = some none → item.wasSkipped = true ∧ item.userAnswer = none) ∧
        (∀ v : Int, s.answers[i]? = some (some v) → 0 ≤ v →
          item.wasSkipped = false ∧ item.userAnswer = q.shuffledOptions.options[v.toNat]?) := by
  refine ⟨reviewFrom_length _ _ _, fun i q hq => ?_⟩
  refine ⟨reviewItem q s.answers[i]?, ?_, rfl, rfl, fun h => ?_, fun h => ?_, fun v h hv => ?_⟩
  · unfold getReviewData
    rw [reviewFrom_getElem?, hq]
    simp
  · rw [h]
    simp [reviewItem]
  · rw [h]
    simp [reviewItem]
  · rw [h]
    have hne : v ≠ -1 := by omega
    simp [reviewItem, optionAt, hv, hne]

/-- C24, failing input. In the sample session the first answer (index 3, "red") is
recorded, the second is unset and the third is skipped. `getReviewData()` returns three
items; the item of the skipped answer has `userAnswer == 'Not answered'`, but the item of
the unset answer has `userAnswer` `undefined`, because `null >= 0` is true in
JavaScript. Both have `wasSkipped == true`. -/
theorem review_of_unset_answer :
    (run sampleSession [Event.start 0, Event.selectOption 3, Event.submitAnswer,
      Event.submitAnswer, Event.advance 1, Event.advance 1,
      Event.handleTimeUp 2]).state.answers = [some 3, none, some (-1)] ∧
    (getReviewData (run sampleSession [Event.start 0, Event.selectOption 3,
      Event.submitAnswer, Event.submitAnswer, Event.advance 1, Event.advance 1,
      Event.handleTimeUp 2]).state).map (fun item => (item.userAnswer, item.wasSkipped)) =
      [(some "red", false), (none, true), (some "Not answered", true)] ∧
    (getReviewData sampleSession.state).map (fun item => (item.userAnswer, item.wasSkipped)) =
      [(none, true), (none, true), (none, true)] := by
  decide

theorem reviewItem_flags (q : PresentedQuestion) (userAnswer : Option (Option Int))
    (hq : q.shuffledOptions.correctIndex ≠ -1) :
    ¬((reviewItem q userAnswer).isCorrect = true ∧
      (reviewItem q userAnswer).wasSkipped = true) := by
  simp only [reviewItem, decide_eq_true_eq]
  rintro ⟨h1, h2 | h2⟩
  · rw [h1] at h2
    simp only [Option.some.injEq] at h2
    exact hq h2
  · rw [h1] at h2
    simp at h2

theorem countCorrect_nil_right (questions : List PresentedQuestion) :
    countCorrect questions [] = 0 := by
  cases questions <;> rfl

theorem review_count (answers : List (Option Int)) (idx : Nat)
    (questions : List PresentedQuestion)
    (hq : ∀ q ∈ questions, q.shuffledOptions.correctIndex ≠ -1) :
    (reviewFrom answers idx questions).countP (fun item => item.isCorrect) =
      countCorrect questions (answers.drop idx) := by
  induction questions generalizing idx with
  | nil => simp [reviewFrom, countCorrect_nil_left]
  | cons q rest ih =>
    have hrest := ih (idx + 1) (fun q hm => hq q (List.mem_cons_of_mem _ hm))
    have hq0 := hq q (List.mem_cons_self _ _)
    simp only [reviewFrom, List.countP_cons, hrest]
    by_cases hlt : idx < answers.length
    · rw [List.drop_eq_getElem_cons hlt]
      simp only [countCorrect, List.getElem?_eq_getElem hlt]
      have hsame : (reviewItem q (some answers[idx])).isCorrect = isRight q answers[idx] := by
        simp only [reviewItem, isRight, Option.some.injEq]
        by_cases hc : answers[idx] = some q.shuffledOptions.correctIndex
        · have h1 : answers[idx] ≠ some (-1) := by
            rw [hc]
            simpa using hq0
          have h2 : answers[idx] ≠ none := by
            rw [hc]
            simp
          simp [hc]
          exact fun h => hq0 h
        · simp [hc]
      rw [hsame]
      omega
    · have hnone : answers[idx]? = none := List.getElem?_eq_none (by omega)
      rw [hnone, List.drop_eq_nil_of_le (by omega : answers.length ≤ idx),
        List.drop_eq_nil_of_le (by omega : answers.length ≤ idx + 1),
        countCorrect_nil_right, countCorrect_nil_right]
      simp [reviewItem]

theorem review_agrees_when_wellformed (s : State)
    (hq : ∀ q ∈ s.questions, q.shuffledOptions.correctIndex ≠ -1) :
    (∀ r : Results, calculateResults s = some r →
      (getReviewData s).countP (fun item => item.isCorrect) = r.correct) ∧
    ∀ item ∈ getReviewData s, ¬(item.isCorrect = true ∧ item.wasSkipped = true) := by
  refine ⟨fun r hr => ?_, fun item hitem => ?_⟩
  · unfold getReviewData
    rw [review_count _ _ _ hq, List.drop_zero]
    unfold calculateResults at hr
    split at hr
    · exact Option.noConfusion hr
    · next c wr ht =>
      simp only [Option.some.injEq] at hr
      subst hr
      obtain ⟨e1, -⟩ := tally_some _ _ _ _ _ ht
      simp only [List.drop_zero, Nat.zero_add] at e1
      exact e1.symm
  · obtain ⟨i, hi⟩ := List.mem_iff_getElem?.mp hitem
    unfold getReviewData at hi
    rw [reviewFrom_getElem?] at hi
    cases hqi : s.questions[i]? with
    | none => simp [hqi] at hi
    | some q =>
      simp only [hqi, Option.map_some', Option.some.injEq] at hi
      subst hi
      exact reviewItem_flags q _ (hq q (List.mem_iff_getElem?.mpr ⟨i, hqi⟩))

/-- C28, counterexample. The pool holds a question whose stored `correct` index (7) is
outside its four options, so its relocated correct index is `-1`. The session is ended
by time-up without an answer, which records the skipped sentinel `-1`.
`calculateResults()` counts 0 correct answers, but `getReviewData()` returns an item
with `isCorrect == true` and `wasSkipped == true`. -/
theorem review_disagrees_with_results :
    (setup World.initial malformedPool keepOrder (fun _ => keepOrder) "css").2 = true ∧
    malformedSession.state.questions.map (fun q => q.shuffledOptions.correctIndex) = [-1] ∧
    malformedTimedOut.state.answers = [some (-1)] ∧
    (calculateResults malformedTimedOut.state).map (fun r => r.correct) = some 0 ∧
    (getReviewData malformedTimedOut.state).countP (fun item => item.isCorrect) = 1 ∧
    (getReviewData malformedTimedOut.state).map
      (fun item => (item.isCorrect, item.wasSkipped)) = [(true, true)] := by
  decide

/-! ## The review agrees with the results on well-formed pools -/

theorem shuffleOptions_correctIndex_ne (draw : Draw) (options : List String)
    (correctIndex : Int) (h0 : 0 ≤ correctIndex) (h1 : correctIndex < options.length) :
    (shuffleOptions draw options correctIndex).correctIndex ≠ -1 := by
  have hperm := shuffleLoop_perm draw ((optionsWithIndex correctIndex 0 options).length - 1)
    (optionsWithIndex correctIndex 0 options)
  obtain ⟨e, he, hc⟩ := optionsWithIndex_exists correctIndex 0 options (by simpa using h0)
    (by simpa using h1)
  have hex : ∃ x, x ∈ shuffleLoop draw ((optionsWithIndex correctIndex 0 options).length - 1)
      (optionsWithIndex correctIndex 0 options) ∧ (fun opt : OptionWithIndex => opt.isCorrect) x :=
    ⟨e, hperm.mem_iff.mpr he, hc⟩
  have hfind := List.findIdx?_eq_some_of_exists hex
  simp only [shuffleOptions, findIndex, hfind]
  omega

theorem presentQuestions_relocated (drawO : Nat → Draw) (idx : Nat) (questions : List Question)
    (h : ∀ q ∈ questions, 0 ≤ q.correct ∧ q.correct < (q.options.length : Int)) :
    ∀ p ∈ presentQuestions drawO idx questions, p.shuffledOptions.correctIndex ≠ -1 := by
  induction questions generalizing idx with
  | nil => simp [presentQuestions]
  | cons q rest ih =>
    intro p hp
    simp only [presentQuestions, List.mem_cons] at hp
    rcases hp with rfl | hp
    · exact shuffleOptions_correctIndex_ne _ _ _ (h q (List.mem_cons_self _ _)).1
        (h q (List.mem_cons_self _ _)).2
    · exact ih (idx + 1) (fun q hq => h q (List.mem_cons_of_mem _ hq)) p hp

theorem getQuizQuestions_subset (pool : List Question) (draw : Draw) (category : String)
    (count : Nat) : ∀ q ∈ getQuizQuestions pool draw category count, q ∈ pool := by
  intro q hq
  have h1 : q ∈ shuffleArray draw (getQuestions pool category) :=
    (List.take_sublist _ _).subset hq
  have h2 : q ∈ getQuestions pool category := (shuffleArray_perm draw _).mem_iff.mp h1
  exact (List.filter_sublist _).subset h2

theorem setup_relocatedInv (w : World) (pool : List Question) (drawQ : Draw)
    (drawO : Nat → Draw) (category : String) (hpool : wellFormedPool pool = true) :
    RelocatedInv (setup w pool drawQ drawO category).1 := by
  have hwf : ∀ q ∈ pool, 0 ≤ q.correct ∧ q.correct < (q.options.length : Int) := by
    simpa [wellFormedPool] using hpool
  unfold RelocatedInv setup
  simp only []
  split
  · simp [reset, State.initial]
  · exact presentQuestions_relocated drawO 0 _
      (fun q hq => hwf q (getQuizQuestions_subset pool drawQ category _ q hq))

theorem step_relocatedInv (w : World) (e : Event) (h : RelocatedInv w)
    (he : wellFormedSetups e = true) : RelocatedInv (step w e) := by
  unfold RelocatedInv at h ⊢
  cases e with
  | reset => simp [step, reset, State.initial]
  | setup pool drawQ drawO category =>
    exact setup_relocatedInv w pool drawQ drawO category he
  | start now => exact h
  | tick handle now =>
    simp only [step]
    split
    · unfold timerCallback
      simp only []
      split
      · simpa [handleTimeUp_state] using h
      · exact h
    · exact h
  | selectOption index => exact h
  | submitAnswer =>
    simp only [step]
    rw [(submitAnswer_questions w).1]
    exact h
  | advance now =>
    simp only [step]
    split
    · unfold advanceCallback
      rw [(nextQuestion_answers _ now).2.1]
      exact h
    · exact h
  | nextQuestion now =>
    simp only [step]
    rw [(nextQuestion_answers w now).2.1]
    exact h
  | handleTimeUp now => simpa [step, handleTimeUp_state] using h
  | endQuiz now => simpa [step, endQuiz_state] using h

theorem run_relocatedInv (w : World) (events : List Event) (h : RelocatedInv w)
    (hl : LenEq w) (he : events.all wellFormedSetups = true) :
    RelocatedInv (run w events) ∧ LenEq (run w events) := by
  induction events generalizing w with
  | nil => exact ⟨h, hl⟩
  | cons e es ih =>
    simp only [List.all_cons, Bool.and_eq_true] at he
    exact ih (step w e) (step_relocatedInv w e h he.1) (step_lenEq w e hl) he.2

/-- C28, amended. Take a question pool in which every question stores a `correct` index
inside its option list, a `setup` from it, and then any sequence of engine operations
(later `setup` calls again from such pools). In every state so reached,
`calculateResults()` returns a `Results`, the number of items of `getReviewData()` with
`isCorrect == true` equals its `correct`, and no item has both `isCorrect == true` and
`wasSkipped == true`. -/
theorem review_matches_results (w0 : World) (pool : List Question) (drawQ : Draw)
    (drawO : Nat → Draw) (category : String) (events : List Event)
    (hpool : wellFormedPool pool = true)
    (hev : events.all wellFormedSetups = true) :
    (∃ r : Results,
      calculateResults (run (setup w0 pool drawQ drawO category).1 events).state = some r ∧
      (getReviewData (run (setup w0 pool drawQ drawO category).1 events).state).countP
        (fun item => item.isCorrect) = r.correct) ∧
    ∀ item ∈ getReviewData (run (setup w0 pool drawQ drawO category).1 events).state,
      ¬(item.isCorrect = true ∧ item.wasSkipped = true) := by
  obtain ⟨hrel, hlen⟩ := run_relocatedInv _ events
    (setup_relocatedInv w0 pool drawQ drawO category hpool)
    (setup_lenEq w0 pool drawQ drawO category) hev
  unfold RelocatedInv at hrel
  obtain ⟨hcount, hflags⟩ := review_agrees_when_wellformed _ hrel
  exact ⟨⟨_, calculateResults_eq _ (le_of_eq hlen),
    hcount _ (calculateResults_eq _ (le_of_eq hlen))⟩, hflags⟩

/-- Witness for C28 (amended): the sample pool is well formed; in its session the first
answer is right, the second wrong and the third skipped by time-up. -/
theorem review_matches_results_witness :
    wellFormedPool samplePool = true ∧
    (run (setup World.initial samplePool keepOrder (fun _ => drawZero) "css").1
      [Event.start 0, Event.selectOption 3, Event.submitAnswer, Event.advance 1,
        Event.selectOption 3, Event.submitAnswer, Event.advance 2,
        Event.handleTimeUp 3]).state.answers = [some 3, some 3, some (-1)] ∧
    (getReviewData (run (setup World.initial samplePool keepOrder (fun _ => drawZero) "css").1
      [Event.start 0, Event.selectOption 3, Event.submitAnswer, Event.advance 1,
        Event.selectOption 3, Event.submitAnswer, Event.advance 2,
        Event.handleTimeUp 3]).state).map (fun item => (item.isCorrect, item.wasSkipped)) =
      [(true, false), (false, false), (false, true)] ∧
    ∃ r : Results,
      calculateResults (run (setup World.initial samplePool keepOrder (fun _ => drawZero)
        "css").1 [Event.start 0, Event.selectOption 3, Event.submitAnswer, Event.advance 1,
          Event.selectOption 3, Event.submitAnswer, Event.advance 2,
          Event.handleTimeUp 3]).state = some r ∧
      (getReviewData (run (setup World.initial samplePool keepOrder (fun _ => drawZero)
        "css").1 [Event.start 0, Event.selectOption 3, Event.submitAnswer, Event.advance 1,
          Event.selectOption 3, Event.submitAnswer, Event.advance 2,
          Event.handleTimeUp 3]).state).countP (fun item => item.isCorrect) = r.correct :=
  ⟨by decide, by decide, by decide,
    (review_matches_results World.initial samplePool keepOrder (fun _ => drawZero) "css"
      [Event.start 0, Event.selectOption 3, Event.submitAnswer, Event.advance 1,
        Event.selectOption 3, Event.submitAnswer, Event.advance 2,
        Event.handleTimeUp 3] (by decide) (by decide)).1⟩

end QuizWhiz
